import Mathlib

/-!
Verification development for the `redisplay/simple-gallery` photo server.

The development shallowly embeds the parts of the JavaScript source that the
specification's testable properties talk about:

* the tag normalizer `normalizeTag` (src/config.js),
* the tag-store operations `getOrCreateTagId` / `setPictureTags` (src/config.js),
* the token-based delivery endpoint `GET /api/photo` (src/server.js), together
  with the database helpers `getPictureCount`, `getPictureByIndex`,
  `getAllPictureIds`, `getPictureById`, `getToken`, `getTokenRandomState`,
  `updateTokenIndex`, `updateTokenRandomState` (src/config.js) and the
  Fisher-Yates `shuffle` (src/server.js).

SQLite tables are modelled as Lean lists of rows; `ORDER BY id` is modelled by
an explicit merge sort; `Math.random()` draws are modelled by oracle functions
whose value is reduced into the range the JavaScript expression
`Math.floor(Math.random() * (i + 1))` produces.
-/

namespace SimpleGallery

/-! ## Tag normalizer (src/config.js, `normalizeTag`)

The JavaScript guards `typeof s !== 'string'` (returning the empty string) and
then chains five steps: `toLowerCase()`, a global replace of whitespace runs
(regex class backslash-s, one-or-more) by `'-'`, a global delete of every
character outside the class `[a-z0-9-]`, a global replace of hyphen runs
(hyphen, one-or-more) by a single `'-'`, and a global delete of the pattern
"leading hyphen or trailing hyphen" (anchored, so at most one of each).

Strings are modelled as `List Char`.  `toLowerCase` is modelled on the ASCII
range (characters outside `A`-`Z` are left unchanged; every non-ASCII
character is removed by the `[^a-z0-9-]` strip in any case).  The regex class
`\s` is modelled by the whitespace characters it matches.
-/

/-- Model of JavaScript `String.prototype.toLowerCase`, ASCII fragment:
uppercase ASCII letters are mapped to lowercase, all other characters are
left unchanged. -/
def jsToLower (c : Char) : Char :=
  if 'A' ≤ c ∧ c ≤ 'Z' then Char.ofNat (c.toNat + 32) else c

/-- Model of the JavaScript regex character class `\s` (whitespace):
tab, line feed, vertical tab, form feed, carriage return, space, NBSP,
and the Unicode space separators together with BOM. -/
def isJsWhitespace (c : Char) : Bool :=
  c == '\t' || c == '\n' || c == (Char.ofNat 11) || c == (Char.ofNat 12) ||
  c == '\r' || c == ' ' || c == (Char.ofNat 0xa0) || c == (Char.ofNat 0x1680) ||
  (Char.ofNat 0x2000 ≤ c && c ≤ Char.ofNat 0x200a) ||
  c == (Char.ofNat 0x2028) || c == (Char.ofNat 0x2029) ||
  c == (Char.ofNat 0x202f) || c == (Char.ofNat 0x205f) ||
  c == (Char.ofNat 0x3000) || c == (Char.ofNat 0xfeff)

/-- The character class `[a-z0-9-]` of the strip step. -/
def isSlugChar (c : Char) : Bool :=
  ('a' ≤ c && c ≤ 'z') || ('0' ≤ c && c ≤ '9') || c == '-'

/-- Auxiliary for `collapseRuns`: `inRun` records whether the previously read
character belonged to the class being collapsed (so that a maximal run emits
exactly one hyphen, at its first character). -/
def collapseRunsAux (p : Char → Bool) : Bool → List Char → List Char
  | _, [] => []
  | inRun, c :: cs =>
    if p c then
      if inRun then collapseRunsAux p true cs
      else '-' :: collapseRunsAux p true cs
    else c :: collapseRunsAux p false cs

/-- Model of a global replace of one-or-more-of-class-`p` runs by `'-'`:
every maximal run of characters satisfying `p` is replaced by a single
hyphen. -/
def collapseRuns (p : Char → Bool) (l : List Char) : List Char :=
  collapseRunsAux p false l

/-- Removal of the (anchored) leading-hyphen match: drop the first character
when it is a hyphen. -/
def trimLeadingHyphen (l : List Char) : List Char :=
  if l.head? = some '-' then l.tail else l

/-- Removal of the (anchored) trailing-hyphen match: drop the last character
when it is a hyphen. -/
def trimTrailingHyphen (l : List Char) : List Char :=
  if l.getLast? = some '-' then l.dropLast else l

/-- Model of the global delete of "leading hyphen or trailing hyphen":
without the `m` flag the anchored regex removes at most one leading and at
most one trailing hyphen. -/
def trimEdgeHyphens (l : List Char) : List Char :=
  trimTrailingHyphen (trimLeadingHyphen l)

/-- The `normalizeTag` pipeline on character lists: lowercase, collapse
whitespace runs to a hyphen, strip characters outside `[a-z0-9-]`, collapse
hyphen runs, trim one leading/trailing hyphen. -/
def normalizeTagChars (l : List Char) : List Char :=
  trimEdgeHyphens
    (collapseRuns (fun c => c == '-')
      ((collapseRuns isJsWhitespace (l.map jsToLower)).filter isSlugChar))

/-- `normalizeTag` on strings (the `typeof` guard is modelled by
`normalizeTagValue` below). -/
def normalizeTag (s : String) : String :=
  ⟨normalizeTagChars s.data⟩

/-- A JavaScript value passed to `normalizeTag`: either a string or a value of
any other type (number, null, undefined, object, ...), for the
`typeof s !== 'string'` guard. -/
inductive JsValue where
  | str (s : String)
  | nonString
deriving DecidableEq

/-- `normalizeTag` on arbitrary JavaScript values: non-string input yields the
empty slug. -/
def normalizeTagValue : JsValue → String
  | .str s => normalizeTag s
  | .nonString => ""

/-! ### Character-level facts about the normalizer -/

/-- Code points of characters in `[a-z0-9-]`. -/
lemma toNat_of_slug {c : Char} (h : isSlugChar c = true) :
    (97 ≤ c.toNat ∧ c.toNat ≤ 122) ∨ (48 ≤ c.toNat ∧ c.toNat ≤ 57) ∨ c.toNat = 45 := by
  simp only [isSlugChar, Bool.or_eq_true, Bool.and_eq_true, decide_eq_true_eq,
    beq_iff_eq] at h
  rcases h with (⟨h1, h2⟩ | ⟨h1, h2⟩) | h
  · exact Or.inl ⟨Char.le_def.mp h1, Char.le_def.mp h2⟩
  · exact Or.inr (Or.inl ⟨Char.le_def.mp h1, Char.le_def.mp h2⟩)
  · subst h; exact Or.inr (Or.inr rfl)

/-- Code points of characters matched by the whitespace class. -/
lemma toNat_of_jsWhitespace {c : Char} (h : isJsWhitespace c = true) :
    c.toNat = 9 ∨ c.toNat = 10 ∨ c.toNat = 11 ∨ c.toNat = 12 ∨ c.toNat = 13 ∨
    c.toNat = 32 ∨ c.toNat = 0xa0 ∨ c.toNat = 0x1680 ∨
    (0x2000 ≤ c.toNat ∧ c.toNat ≤ 0x200a) ∨ c.toNat = 0x2028 ∨
    c.toNat = 0x2029 ∨ c.toNat = 0x202f ∨ c.toNat = 0x205f ∨
    c.toNat = 0x3000 ∨ c.toNat = 0xfeff := by
  simp only [isJsWhitespace, Bool.or_eq_true, Bool.and_eq_true, decide_eq_true_eq,
    beq_iff_eq] at h
  rcases h with ((((((((((((((h | h) | h) | h) | h) | h) | h) | h) | ⟨h1, h2⟩) | h) |
    h) | h) | h) | h) | h) <;>
    first
      | (subst h; simp)
      | (exact Or.inr (Or.inr (Or.inr (Or.inr (Or.inr (Or.inr (Or.inr (Or.inr
          (Or.inl ⟨Char.le_def.mp h1, Char.le_def.mp h2⟩)))))))))

/-- A slug character is not whitespace. -/
lemma isJsWhitespace_eq_false_of_slug {c : Char} (h : isSlugChar c = true) :
    isJsWhitespace c = false := by
  by_contra hw
  have hw' : isJsWhitespace c = true := by
    cases hx : isJsWhitespace c
    · exact absurd hx hw
    · rfl
  have h1 := toNat_of_slug h
  have h2 := toNat_of_jsWhitespace hw'
  omega

/-- `toLowerCase` is the identity on slug characters. -/
lemma jsToLower_eq_self_of_slug {c : Char} (h : isSlugChar c = true) :
    jsToLower c = c := by
  have h1 := toNat_of_slug h
  unfold jsToLower
  rw [if_neg]
  rintro ⟨hA, hZ⟩
  have hA' : 65 ≤ c.toNat := Char.le_def.mp hA
  have hZ' : c.toNat ≤ 90 := Char.le_def.mp hZ
  omega

/-- The hyphen is a slug character. -/
lemma isSlugChar_hyphen : isSlugChar '-' = true := by decide

/-! ### Facts about run collapsing -/

/-- Collapsing a class no character of the list belongs to is the identity. -/
lemma collapseRunsAux_eq_self {p : Char → Bool} :
    ∀ (l : List Char), (∀ c ∈ l, p c = false) → ∀ b, collapseRunsAux p b l = l := by
  intro l
  induction l with
  | nil => intro _ _; rfl
  | cons c cs ih =>
    intro h b
    have hc : p c = false := h c (List.mem_cons_self c cs)
    simp only [collapseRunsAux, hc]
    simp only [Bool.false_eq_true, if_false, List.cons.injEq, true_and]
    exact ih (fun d hd => h d (List.mem_cons_of_mem c hd)) false

/-- Every character emitted by run collapsing is a hyphen or came from the
input. -/
lemma mem_collapseRunsAux {p : Char → Bool} {c : Char} :
    ∀ (l : List Char) (b : Bool), c ∈ collapseRunsAux p b l → c = '-' ∨ c ∈ l := by
  intro l
  induction l with
  | nil => intro b h; simp [collapseRunsAux] at h
  | cons a cs ih =>
    intro b h
    simp only [collapseRunsAux] at h
    by_cases hp : p a = true
    · simp only [hp, if_true] at h
      cases b with
      | true =>
        rcases ih true h with h1 | h1
        · exact Or.inl h1
        · exact Or.inr (List.mem_cons_of_mem a h1)
      | false =>
        simp only [Bool.false_eq_true, if_false] at h
        rcases List.mem_cons.mp h with h1 | h1
        · exact Or.inl h1
        · rcases ih true h1 with h2 | h2
          · exact Or.inl h2
          · exact Or.inr (List.mem_cons_of_mem a h2)
    · simp only [hp] at h
      simp only [Bool.false_eq_true, if_false] at h
      rcases List.mem_cons.mp h with h1 | h1
      · subst h1; exact Or.inr (List.mem_cons_self c cs)
      · rcases ih false h1 with h2 | h2
        · exact Or.inl h2
        · exact Or.inr (List.mem_cons_of_mem a h2)

/-- The relation "not both hyphens" between adjacent characters. -/
def NotBothHyphens (a b : Char) : Prop := ¬(a = '-' ∧ b = '-')

/-- Hyphen-run collapsing never emits two adjacent hyphens, and in the
mid-run state the next emitted character is not a hyphen. -/
lemma chain'_collapseRunsAux_hyphen :
    ∀ (l : List Char),
      (collapseRunsAux (fun c => c == '-') true l).head? ≠ some '-' ∧
      List.Chain' NotBothHyphens (collapseRunsAux (fun c => c == '-') true l) ∧
      List.Chain' NotBothHyphens (collapseRunsAux (fun c => c == '-') false l) := by
  intro l
  induction l with
  | nil => exact ⟨by simp [collapseRunsAux], List.chain'_nil, List.chain'_nil⟩
  | cons a cs ih =>
    obtain ⟨ih1, ih2, ih3⟩ := ih
    by_cases ha : a = '-'
    · have hp : ((fun c => c == '-') a) = true := by simp [ha]
      refine ⟨?_, ?_, ?_⟩
      · simp only [collapseRunsAux, hp, if_true]
        exact ih1
      · simp only [collapseRunsAux, hp, if_true]
        exact ih2
      · simp only [collapseRunsAux, hp, if_true, if_false]
        refine List.chain'_cons'.mpr ⟨?_, ih2⟩
        intro y hy hcontra
        rw [Option.mem_def] at hy
        exact ih1 (hcontra.2 ▸ hy)
    · have hp : ((fun c => c == '-') a) = false := by simp [ha]
      refine ⟨?_, ?_, ?_⟩
      · simp only [collapseRunsAux, hp, Bool.false_eq_true, if_false, List.head?_cons]
        intro hcontra
        exact ha (Option.some.inj hcontra)
      · simp only [collapseRunsAux, hp, Bool.false_eq_true, if_false]
        refine List.chain'_cons'.mpr ⟨?_, ih3⟩
        intro y _
        intro hcontra
        exact ha hcontra.1
      · simp only [collapseRunsAux, hp, Bool.false_eq_true, if_false]
        refine List.chain'_cons'.mpr ⟨?_, ih3⟩
        intro y _
        intro hcontra
        exact ha hcontra.1

/-- Hyphen-run collapsing is the identity on lists with no adjacent
hyphens (each maximal hyphen run has length one and is replaced by itself). -/
lemma collapseRunsAux_hyphen_eq_self :
    ∀ (l : List Char), List.Chain' NotBothHyphens l →
      collapseRunsAux (fun c => c == '-') false l = l ∧
      (l.head? ≠ some '-' → collapseRunsAux (fun c => c == '-') true l = l) := by
  intro l
  induction l with
  | nil => exact fun _ => ⟨rfl, fun _ => rfl⟩
  | cons a cs ih =>
    intro hch
    obtain ⟨hrel, hch'⟩ := List.chain'_cons'.mp hch
    obtain ⟨ihF, ihT⟩ := ih hch'
    by_cases ha : a = '-'
    · have hp : ((fun c => c == '-') a) = true := by simp [ha]
      have hcs : cs.head? ≠ some '-' := by
        intro hh
        have := hrel '-' (by rw [Option.mem_def]; exact hh)
        exact this ⟨ha, rfl⟩
      constructor
      · simp only [collapseRunsAux, hp, if_true, Bool.false_eq_true, if_false]
        rw [ihT hcs, ha]
      · intro hhead
        exfalso
        apply hhead
        rw [List.head?_cons, ha]
    · have hp : ((fun c => c == '-') a) = false := by simp [ha]
      constructor
      · simp only [collapseRunsAux, hp, Bool.false_eq_true, if_false]
        rw [ihF]
      · intro _
        simp only [collapseRunsAux, hp, Bool.false_eq_true, if_false]
        rw [ihF]

/-! ### Facts about edge-hyphen trimming -/

/-- In a list with no adjacent hyphens whose last element is a hyphen, the
element before it is not a hyphen. -/
lemma getLast?_dropLast_ne_hyphen :
    ∀ (l : List Char), List.Chain' NotBothHyphens l → l.getLast? = some '-' →
      l.dropLast.getLast? ≠ some '-' := by
  intro l
  induction l with
  | nil => intro _ h; simp at h
  | cons a cs ih =>
    intro hch hlast
    cases cs with
    | nil => simp
    | cons b t =>
      obtain ⟨hrel, hch'⟩ := List.chain'_cons'.mp hch
      rw [List.getLast?_cons_cons] at hlast
      rw [List.dropLast_cons₂]
      cases ht : (b :: t).dropLast with
      | nil =>
        have hb : b = '-' := by
          cases t with
          | nil => simpa using hlast
          | cons c u => simp [List.dropLast_cons₂] at ht
        have : a ≠ '-' := by
          intro haa
          exact hrel b (by simp) ⟨haa, hb⟩
        simpa using this
      | cons d u =>
        have hihl := ih hch' hlast
        rw [ht] at hihl
        rw [List.getLast?_cons_cons]
        exact hihl

/-- In a list with no adjacent hyphens whose head is a hyphen, the second
element is not a hyphen. -/
lemma head?_tail_ne_hyphen {l : List Char}
    (hch : List.Chain' NotBothHyphens l) (hhead : l.head? = some '-') :
    l.tail.head? ≠ some '-' := by
  cases l with
  | nil => simp at hhead
  | cons a cs =>
    obtain ⟨hrel, _⟩ := List.chain'_cons'.mp hch
    have ha : a = '-' := by simpa using hhead
    intro hh
    cases cs with
    | nil => simp at hh
    | cons b t =>
      have hb : b = '-' := by simpa using hh
      exact hrel b (by simp) ⟨ha, hb⟩

/-- Dropping the last element does not change a non-hyphen head. -/
lemma head?_dropLast_ne_hyphen {l : List Char} (h : l.head? ≠ some '-') :
    l.dropLast.head? ≠ some '-' := by
  cases l with
  | nil => simp
  | cons a cs =>
    cases cs with
    | nil => simp
    | cons b t =>
      rw [List.dropLast_cons₂, List.head?_cons]
      rw [List.head?_cons] at h
      exact h

/-- Characters of the trimmed list come from the original list. -/
lemma mem_trimEdgeHyphens {c : Char} {l : List Char}
    (h : c ∈ trimEdgeHyphens l) : c ∈ l := by
  unfold trimEdgeHyphens trimTrailingHyphen trimLeadingHyphen at h
  by_cases h1 : l.head? = some '-'
  · rw [if_pos h1] at h
    by_cases h2 : l.tail.getLast? = some '-'
    · rw [if_pos h2] at h
      exact List.tail_subset l (List.dropLast_subset l.tail h)
    · rw [if_neg h2] at h
      exact List.tail_subset l h
  · rw [if_neg h1] at h
    by_cases h2 : l.getLast? = some '-'
    · rw [if_pos h2] at h
      exact List.dropLast_subset l h
    · rw [if_neg h2] at h
      exact h

/-- Trimming a list with no adjacent hyphens yields a list that neither
starts nor ends with a hyphen, and still has no adjacent hyphens. -/
lemma trimEdgeHyphens_spec {l : List Char} (hch : List.Chain' NotBothHyphens l) :
    (trimEdgeHyphens l).head? ≠ some '-' ∧
    (trimEdgeHyphens l).getLast? ≠ some '-' ∧
    List.Chain' NotBothHyphens (trimEdgeHyphens l) := by
  unfold trimEdgeHyphens
  have hch1 : List.Chain' NotBothHyphens (trimLeadingHyphen l) := by
    unfold trimLeadingHyphen
    by_cases h : l.head? = some '-'
    · rw [if_pos h]; exact hch.tail
    · rw [if_neg h]; exact hch
  have hhead1 : (trimLeadingHyphen l).head? ≠ some '-' := by
    unfold trimLeadingHyphen
    by_cases h : l.head? = some '-'
    · rw [if_pos h]
      exact head?_tail_ne_hyphen hch h
    · rw [if_neg h]
      exact h
  unfold trimTrailingHyphen
  by_cases h2 : (trimLeadingHyphen l).getLast? = some '-'
  · rw [if_pos h2]
    exact ⟨head?_dropLast_ne_hyphen hhead1,
      getLast?_dropLast_ne_hyphen (trimLeadingHyphen l) hch1 h2,
      hch1.prefix (List.dropLast_prefix (trimLeadingHyphen l))⟩
  · rw [if_neg h2]
    exact ⟨hhead1, h2, hch1⟩

/-- Trimming is the identity on a list that neither starts nor ends with a
hyphen. -/
lemma trimEdgeHyphens_eq_self {l : List Char}
    (h1 : l.head? ≠ some '-') (h2 : l.getLast? ≠ some '-') :
    trimEdgeHyphens l = l := by
  unfold trimEdgeHyphens trimTrailingHyphen trimLeadingHyphen
  rw [if_neg h1, if_neg h2]

/-! ### Idempotence of the normalizer -/

/-- Every character of a normalized tag is in `[a-z0-9-]`. -/
lemma slug_of_mem_normalizeTagChars {c : Char} {l : List Char}
    (h : c ∈ normalizeTagChars l) : isSlugChar c = true := by
  unfold normalizeTagChars collapseRuns at h
  have h1 := mem_trimEdgeHyphens h
  rcases mem_collapseRunsAux _ false h1 with h2 | h2
  · rw [h2]; exact isSlugChar_hyphen
  · exact (List.mem_filter.mp h2).2

/-- A normalized tag has no leading hyphen, no trailing hyphen and no two
adjacent hyphens. -/
lemma normalizeTagChars_spec (l : List Char) :
    (normalizeTagChars l).head? ≠ some '-' ∧
    (normalizeTagChars l).getLast? ≠ some '-' ∧
    List.Chain' NotBothHyphens (normalizeTagChars l) := by
  unfold normalizeTagChars collapseRuns
  exact trimEdgeHyphens_spec (chain'_collapseRunsAux_hyphen _).2.2

/-- The normalization pipeline is idempotent at the character-list level:
each of its five steps is the identity on an already-normalized list. -/
lemma normalizeTagChars_idempotent (l : List Char) :
    normalizeTagChars (normalizeTagChars l) = normalizeTagChars l := by
  obtain ⟨hh, hl, hch⟩ := normalizeTagChars_spec l
  have hslug : ∀ c ∈ normalizeTagChars l, isSlugChar c = true :=
    fun c hc => slug_of_mem_normalizeTagChars hc
  have h1 : (normalizeTagChars l).map jsToLower = normalizeTagChars l := by
    rw [List.map_congr_left (fun c hc => jsToLower_eq_self_of_slug (hslug c hc))]
    exact List.map_id _
  have h2 : collapseRuns isJsWhitespace (normalizeTagChars l) = normalizeTagChars l :=
    collapseRunsAux_eq_self _
      (fun c hc => isJsWhitespace_eq_false_of_slug (hslug c hc)) false
  have h3 : (normalizeTagChars l).filter isSlugChar = normalizeTagChars l :=
    List.filter_eq_self.mpr hslug
  have h4 : collapseRuns (fun c => c == '-') (normalizeTagChars l) =
      normalizeTagChars l :=
    (collapseRunsAux_hyphen_eq_self _ hch).1
  show trimEdgeHyphens
    (collapseRuns (fun c => c == '-')
      ((collapseRuns isJsWhitespace ((normalizeTagChars l).map jsToLower)).filter
        isSlugChar)) = normalizeTagChars l
  rw [h1, h2, h3, h4]
  exact trimEdgeHyphens_eq_self hh hl

/-- Idempotence at the string level. -/
lemma normalizeTag_idempotent (s : String) :
    normalizeTag (normalizeTag s) = normalizeTag s := by
  unfold normalizeTag
  exact congrArg String.mk (normalizeTagChars_idempotent s.data)

/-- C7: tag normalization (the lowercase / whitespace-to-hyphen /
strip-to-`[a-z0-9-]` / collapse-hyphens / trim-edge-hyphens pipeline embodied
by `normalizeTagChars`) is a pure function that is idempotent on every
JavaScript input, non-string or empty input yields the empty slug, and
normalizing `"  Paris, 2024!! "` yields `"paris-2024"`. -/
theorem normalizeTag_idempotent_pipeline :
    (∀ x : JsValue, normalizeTagValue (JsValue.str (normalizeTagValue x)) =
      normalizeTagValue x) ∧
    normalizeTagValue JsValue.nonString = "" ∧
    normalizeTag "" = "" ∧
    normalizeTag "  Paris, 2024!! " = "paris-2024" := by
  refine ⟨?_, rfl, by decide, by decide⟩
  intro x
  cases x with
  | str s => exact normalizeTag_idempotent s
  | nonString => decide

/-! ## Delivery engine (src/server.js `GET /api/photo` and the token/picture
helpers of the database module)

Pictures are modelled by their integer ids: the only picture attributes the
delivery claims mention are ids, and rows are keyed by id.  The `pictures`
table is a list of ids (`PRIMARY KEY` uniqueness is a hypothesis where
needed); `ORDER BY id` is an explicit merge sort.  The `tokens` table is an
association list from the token string (its primary key) to its row. -/

/-- A row of the `tokens` table: `current_index INTEGER NOT NULL DEFAULT 0`,
`random_ids TEXT` (a serialized id list, nullable), `random_index INTEGER
NOT NULL DEFAULT 0`.  The `created_at` audit column plays no role in any
claim and is omitted. -/
structure TokenRow where
  current_index : Nat
  random_ids : Option (List Nat)
  random_index : Nat
deriving DecidableEq, Repr

/-- The persisted gallery database: the `pictures` table (as the list of its
ids) and the `tokens` table. -/
structure GalleryDB where
  pictures : List Nat
  tokens : List (String × TokenRow)
deriving DecidableEq, Repr

/-- `SELECT COUNT(*) FROM pictures` (`getPictureCount`). -/
def getPictureCount (g : GalleryDB) : Nat :=
  g.pictures.length

/-- The ascending-id enumeration `ORDER BY id` of the `pictures` table
(modelled by insertion sort; any sort realizes `ORDER BY`). -/
def sortedIds (g : GalleryDB) : List Nat :=
  g.pictures.insertionSort (fun a b => a ≤ b)

/-- `SELECT id FROM pictures ORDER BY id` (`getAllPictureIds`). -/
def getAllPictureIds (g : GalleryDB) : List Nat :=
  sortedIds g

/-- `SELECT * FROM pictures ORDER BY id LIMIT 1 OFFSET index`
(`getPictureByIndex`): the row at zero-based ordinal `index`, absent when out
of range. -/
def getPictureByIndex (g : GalleryDB) (index : Nat) : Option Nat :=
  (sortedIds g)[index]?

/-- `SELECT * FROM pictures WHERE id = ?` (`getPictureById`). -/
def getPictureById (g : GalleryDB) (id : Nat) : Option Nat :=
  g.pictures.find? (fun p => p == id)

/-- `SELECT * FROM tokens WHERE token = ?` (`getToken`). -/
def getToken (g : GalleryDB) (token : String) : Option TokenRow :=
  (g.tokens.find? (fun r => r.1 == token)).map (fun r => r.2)

/-- `getTokenRandomState`: the row's `random_ids` (JSON-parsed, `null` maps
to `none`) and `random_index` (`row.random_index || 0` is the identity on a
`NOT NULL` integer column). -/
def getTokenRandomState (g : GalleryDB) (token : String) :
    Option (Option (List Nat) × Nat) :=
  (getToken g token).map (fun r => (r.random_ids, r.random_index))

/-- `UPDATE tokens SET current_index = ? WHERE token = ?`
(`updateTokenIndex`). -/
def updateTokenIndex (g : GalleryDB) (token : String) (index : Nat) : GalleryDB :=
  { g with
    tokens := g.tokens.map (fun r =>
      if r.1 == token then (r.1, { r.2 with current_index := index }) else r) }

/-- `UPDATE tokens SET random_ids = ?, random_index = ? WHERE token = ?`
(`updateTokenRandomState`). -/
def updateTokenRandomState (g : GalleryDB) (token : String) (ids : List Nat)
    (index : Nat) : GalleryDB :=
  { g with
    tokens := g.tokens.map (fun r =>
      if r.1 == token then
        (r.1, { r.2 with random_ids := some ids, random_index := index })
      else r) }

/-- One swap step of the Fisher-Yates loop: exchange the elements at
positions `i` and `j` (both always in range when called from `shuffle`). -/
def swapAt (l : List Nat) (i j : Nat) : List Nat :=
  match l[i]?, l[j]? with
  | some a, some b => (l.set i b).set j a
  | _, _ => l

/-- The descending Fisher-Yates loop of `shuffle`: for `i` from `hi` down to
`1`, swap position `i` with position `rand i % (i + 1)`.  The draw
`Math.floor(Math.random() * (i + 1))`, a uniformly random integer in
`[0, i]`, is modelled by an oracle `rand` reduced into that range. -/
def shuffleFrom (rand : Nat → Nat) : List Nat → Nat → List Nat
  | a, 0 => a
  | a, i + 1 => shuffleFrom rand (swapAt a (i + 1) (rand (i + 1) % (i + 2))) i

/-- `shuffle` (src/server.js): copy the array and run the Fisher-Yates loop
from index `length - 1` down to `1`. -/
def shuffle (rand : Nat → Nat) (arr : List Nat) : List Nat :=
  shuffleFrom rand arr (arr.length - 1)

/-- The traversal mode of a delivery request.  The handler defaults
`req.query.mode` to `'next'` and only ever tests `mode === 'random'`, so any
value other than `'random'` behaves as `next` (sequential). -/
inductive Mode where
  | random
  | next
deriving DecidableEq, Repr

/-- The caller-visible outcome of `GET /api/photo`: the HTTP status and error
message of each early return, or the served picture id. -/
inductive Outcome where
  | badRequest (msg : String)
  | forbidden (msg : String)
  | notFound (msg : String)
  | served (id : Nat)
deriving DecidableEq, Repr

/-- The `EmptyCollection` outcome: status 404 with body
`'No pictures in gallery'`. -/
def emptyCollectionOutcome : Outcome :=
  Outcome.notFound "No pictures in gallery"

/-- The generic not-found outcome: status 404 with body `'Not found'`. -/
def genericNotFoundOutcome : Outcome :=
  Outcome.notFound "Not found"

/-- The condition of the regeneration branch
`!ids || ids.length === 0 || idx >= ids.length`. -/
def needsRegen (ids : Option (List Nat)) (idx : Nat) : Bool :=
  match ids with
  | none => true
  | some l => l.isEmpty || decide (l.length ≤ idx)

/-- The handler `GET /api/photo` (src/server.js).  `token?` is the `token`
query parameter (`none` when absent; the JavaScript guard `!token` also
rejects the empty string).  `randA` and `randB` are the oracles for the up to
two `shuffle` calls a single request can make.  Returns the outcome and the
database after the request. -/
def apiPhoto (g : GalleryDB) (token? : Option String) (mode : Mode)
    (randA randB : Nat → Nat) : Outcome × GalleryDB :=
  match token? with
  | none => (Outcome.badRequest "token required", g)
  | some token =>
    if token = "" then (Outcome.badRequest "token required", g)
    else
      let count := getPictureCount g
      if count = 0 then (Outcome.notFound "No pictures in gallery", g)
      else
        match getToken g token with
        | none => (Outcome.forbidden "Invalid or revoked token", g)
        | some tokenData =>
          let picAndDb : Option Nat × GalleryDB :=
            match mode with
            | Mode.random =>
              let state := getTokenRandomState g token
              let ids0 : Option (List Nat) := state.bind (fun s => s.1)
              let idx0 : Nat := match state with | some s => s.2 | none => 0
              let ids1idx1 : List Nat × Nat :=
                if needsRegen ids0 idx0 then (shuffle randA (getAllPictureIds g), 0)
                else (ids0.getD [], idx0)
              let ids1 := ids1idx1.1
              let idx1 := ids1idx1.2
              let pic : Option Nat :=
                match ids1[idx1]? with
                | some picId => getPictureById g picId
                | none => none
              let idx2 := idx1 + 1
              let ids3idx3 : List Nat × Nat :=
                if ids1.length ≤ idx2 then (shuffle randB (getAllPictureIds g), 0)
                else (ids1, idx2)
              (pic, updateTokenRandomState g token ids3idx3.1 ids3idx3.2)
            | Mode.next =>
              let index := tokenData.current_index % count
              let pic := getPictureByIndex g index
              (pic, updateTokenIndex g token ((index + 1) % count))
          match picAndDb.1 with
          | none => (Outcome.notFound "Not found", picAndDb.2)
          | some p => (Outcome.served p, picAndDb.2)

/-! ### Basic facts about the database helpers -/

/-- `find?` with an equality test returns the looked-up element whenever it
is present. -/
lemma find?_beq_eq_some_of_mem {x : Nat} {l : List Nat} (h : x ∈ l) :
    l.find? (fun p => p == x) = some x := by
  induction l with
  | nil => simp at h
  | cons a as ih =>
    by_cases ha : a = x
    · subst ha
      simp [List.find?]
    · have hmem : x ∈ as := by
        rcases List.mem_cons.mp h with h1 | h1
        · exact absurd h1.symm ha
        · exact h1
      simp only [List.find?]
      have : (a == x) = false := beq_false_of_ne ha
      rw [this]
      exact ih hmem

/-- `getPictureById` succeeds exactly on ids present in the table. -/
lemma getPictureById_eq_some_of_mem {g : GalleryDB} {x : Nat}
    (h : x ∈ g.pictures) : getPictureById g x = some x :=
  find?_beq_eq_some_of_mem h

/-- Updating a token's cursor does not touch the pictures table. -/
lemma pictures_updateTokenIndex (g : GalleryDB) (t : String) (i : Nat) :
    (updateTokenIndex g t i).pictures = g.pictures := rfl

/-- Updating a token's randomized state does not touch the pictures table. -/
lemma pictures_updateTokenRandomState (g : GalleryDB) (t : String)
    (ids : List Nat) (i : Nat) :
    (updateTokenRandomState g t ids i).pictures = g.pictures := rfl

/-- Reading a token after updating its cursor. -/
lemma getToken_updateTokenIndex (g : GalleryDB) (t : String) (i : Nat) :
    getToken (updateTokenIndex g t i) t =
      (getToken g t).map (fun r => { r with current_index := i }) := by
  unfold getToken updateTokenIndex
  induction g.tokens with
  | nil => rfl
  | cons r rs ih =>
    by_cases hr : r.1 = t
    · have hb : (r.1 == t) = true := beq_iff_eq.mpr hr
      simp [List.find?, hb]
    · have hb : (r.1 == t) = false := beq_false_of_ne hr
      simp only [List.map_cons, hb, Bool.false_eq_true, if_false, List.find?, hb]
      exact ih

/-- Reading a token after updating its randomized state. -/
lemma getToken_updateTokenRandomState (g : GalleryDB) (t : String)
    (ids : List Nat) (i : Nat) :
    getToken (updateTokenRandomState g t ids i) t =
      (getToken g t).map
        (fun r => { r with random_ids := some ids, random_index := i }) := by
  unfold getToken updateTokenRandomState
  induction g.tokens with
  | nil => rfl
  | cons r rs ih =>
    by_cases hr : r.1 = t
    · have hb : (r.1 == t) = true := beq_iff_eq.mpr hr
      simp [List.find?, hb]
    · have hb : (r.1 == t) = false := beq_false_of_ne hr
      simp only [List.map_cons, hb, Bool.false_eq_true, if_false, List.find?, hb]
      exact ih

/-- The sorted enumeration is a permutation of the pictures table. -/
lemma sortedIds_perm (g : GalleryDB) : (sortedIds g).Perm g.pictures :=
  List.perm_insertionSort _ g.pictures

/-- The sorted enumeration has as many entries as the table. -/
lemma length_sortedIds (g : GalleryDB) :
    (sortedIds g).length = getPictureCount g :=
  (sortedIds_perm g).length_eq

/-- The sorted enumeration is sorted by `≤`. -/
lemma sortedIds_sorted (g : GalleryDB) : (sortedIds g).Sorted (· ≤ ·) :=
  List.sorted_insertionSort _ g.pictures

/-- With distinct ids (the table's primary key) the enumeration is strictly
increasing. -/
lemma sortedIds_sorted_lt {g : GalleryDB} (h : g.pictures.Nodup) :
    (sortedIds g).Sorted (· < ·) := by
  have hnd : (sortedIds g).Nodup := (sortedIds_perm g).nodup_iff.mpr h
  exact (sortedIds_sorted g).lt_of_le hnd

/-- Members of the sorted enumeration are rows of the table. -/
lemma mem_pictures_of_mem_sortedIds {g : GalleryDB} {x : Nat}
    (h : x ∈ sortedIds g) : x ∈ g.pictures :=
  (sortedIds_perm g).mem_iff.mp h

/-! ### The Fisher-Yates shuffle permutes its input -/

/-- Writing `l[j]` at position `i` and `l[i]` at position `j` permutes `l`. -/
lemma set_set_perm (l : List Nat) (i j : Nat) (hi : i < l.length)
    (hj : j < l.length) : (((l.set i l[j]).set j l[i])).Perm l := by
  rw [List.perm_iff_count]
  intro a
  have hj1 : j < (l.set i l[j]).length := by simpa using hj
  have hi1 : i < l.length := hi
  rw [List.count_set l[i] a (l.set i l[j]) j hj1]
  rw [List.count_set l[j] a l i hi1]
  have hij : (l.set i l[j])[j] = l[j] := by
    rw [List.getElem_set]
    by_cases h : i = j
    · subst h; simp
    · rw [if_neg h]
  rw [hij]
  have hcj : (if (l[j] == a) = true then 1 else 0) ≤
      List.count a l - (if (l[i] == a) = true then 1 else 0) +
        (if (l[j] == a) = true then 1 else 0) := Nat.le_add_left _ _
  have hci : (if (l[i] == a) = true then 1 else 0) ≤ List.count a l := by
    by_cases h : (l[i] == a) = true
    · rw [if_pos h]
      have : a ∈ l := by
        have := beq_iff_eq.mp h
        rw [← this]
        exact List.getElem_mem hi
      simpa [List.count_pos_iff] using List.count_pos_iff.mpr this
    · rw [if_neg h]
      exact Nat.zero_le _
  omega

/-- One Fisher-Yates swap permutes the list. -/
lemma swapAt_perm (l : List Nat) (i j : Nat) : (swapAt l i j).Perm l := by
  unfold swapAt
  cases hi : l[i]? with
  | none => exact List.Perm.refl l
  | some a =>
    cases hj : l[j]? with
    | none => exact List.Perm.refl l
    | some b =>
      have hi' : i < l.length := by
        by_contra hc
        rw [List.getElem?_eq_none (Nat.le_of_not_lt hc)] at hi
        exact Option.noConfusion hi
      have hj' : j < l.length := by
        by_contra hc
        rw [List.getElem?_eq_none (Nat.le_of_not_lt hc)] at hj
        exact Option.noConfusion hj
      have ha : a = l[i] := by
        rw [List.getElem?_eq_getElem hi'] at hi
        exact (Option.some.inj hi).symm
      have hb : b = l[j] := by
        rw [List.getElem?_eq_getElem hj'] at hj
        exact (Option.some.inj hj).symm
      subst ha
      subst hb
      exact set_set_perm l i j hi' hj'

/-- The Fisher-Yates loop permutes the list. -/
lemma shuffleFrom_perm (rand : Nat → Nat) :
    ∀ (k : Nat) (a : List Nat), (shuffleFrom rand a k).Perm a := by
  intro k
  induction k with
  | zero => intro a; exact List.Perm.refl a
  | succ i ih =>
    intro a
    exact (ih (swapAt a (i + 1) (rand (i + 1) % (i + 2)))).trans
      (swapAt_perm a (i + 1) (rand (i + 1) % (i + 2)))

/-- `shuffle` returns a permutation of its input. -/
lemma shuffle_perm (rand : Nat → Nat) (arr : List Nat) :
    (shuffle rand arr).Perm arr :=
  shuffleFrom_perm rand (arr.length - 1) arr

/-- `shuffle` preserves the length. -/
lemma length_shuffle (rand : Nat → Nat) (arr : List Nat) :
    (shuffle rand arr).length = arr.length :=
  (shuffle_perm rand arr).length_eq

/-! ### The sequential branch -/

/-- Characterization of a sequential delivery: with a non-empty collection
and a known token, the handler reads the ordinal `current_index % count` and
writes back `(current_index % count + 1) % count`. -/
lemma apiPhoto_next_eq (g : GalleryDB) (t : String) (row : TokenRow)
    (rA rB : Nat → Nat) (ht : t ≠ "") (hrow : getToken g t = some row)
    (hc : getPictureCount g ≠ 0) :
    apiPhoto g (some t) Mode.next rA rB =
      ((match getPictureByIndex g (row.current_index % getPictureCount g) with
        | none => Outcome.notFound "Not found"
        | some p => Outcome.served p),
       updateTokenIndex g t
         ((row.current_index % getPictureCount g + 1) % getPictureCount g)) := by
  simp only [apiPhoto, if_neg ht, if_neg hc, hrow]
  cases hp : getPictureByIndex g (row.current_index % getPictureCount g) <;>
    simp [hp]

/-- In-range ordinals resolve. -/
lemma getPictureByIndex_eq_some {g : GalleryDB} {i : Nat}
    (h : i < getPictureCount g) :
    ∃ hlt : i < (sortedIds g).length,
      getPictureByIndex g i = some ((sortedIds g).get ⟨i, hlt⟩) := by
  have hlt : i < (sortedIds g).length := by rw [length_sortedIds]; exact h
  refine ⟨hlt, ?_⟩
  unfold getPictureByIndex
  rw [List.getElem?_eq_getElem hlt]
  rfl

/-- C1 counterexample: with one picture `A` (id 1) and token `T` at stored
cursor 0, the first sequential delivery serves `A` but persists cursor
`(0 + 1) % 1 = 0`, not the raw increment `0 + 1 = 1` the claim asserts; and
in the subsequent state of the claim's scenario (pictures `{1, 2}`, the
actually-stored cursor 0) the next sequential delivery serves `A` (id 1)
again, not `B` (id 2). -/
theorem seq_cursor_counterexample :
    (apiPhoto ⟨[1], [("T", ⟨0, none, 0⟩)]⟩ (some "T") Mode.next
        (fun _ => 0) (fun _ => 0)).1 = Outcome.served 1 ∧
    getToken (apiPhoto ⟨[1], [("T", ⟨0, none, 0⟩)]⟩ (some "T") Mode.next
        (fun _ => 0) (fun _ => 0)).2 "T" = some ⟨0, none, 0⟩ ∧
    (getToken (apiPhoto ⟨[1], [("T", ⟨0, none, 0⟩)]⟩ (some "T") Mode.next
        (fun _ => 0) (fun _ => 0)).2 "T").map TokenRow.current_index ≠
      some (0 + 1) ∧
    (apiPhoto ⟨[1, 2], [("T", ⟨0, none, 0⟩)]⟩ (some "T") Mode.next
        (fun _ => 0) (fun _ => 0)).1 = Outcome.served 1 ∧
    Outcome.served 1 ≠ Outcome.served 2 := by
  refine ⟨by decide, by decide, by decide, by decide, by decide⟩

/-- C1 amended: a sequential delivery against a non-empty collection of
current size `n` with stored cursor `c` serves `getByOrdinal(c mod n)` and
persists `(c mod n + 1) mod n` — the write is re-reduced modulo `n`;
consequently in the claim's scenario (picture A id 1, token at cursor 0,
then picture B id 2 added) the deliveries serve A, then A again (stored
cursor becomes 1), then B (stored cursor becomes 0). -/
theorem seq_delivery_serves_mod_and_persists_reduced (g : GalleryDB)
    (t : String) (row : TokenRow) (rA rB : Nat → Nat) (ht : t ≠ "")
    (hrow : getToken g t = some row) (hn : 0 < getPictureCount g) :
    (∃ hlt : row.current_index % getPictureCount g < (sortedIds g).length,
      apiPhoto g (some t) Mode.next rA rB =
        (Outcome.served ((sortedIds g).get
            ⟨row.current_index % getPictureCount g, hlt⟩),
         updateTokenIndex g t
           ((row.current_index % getPictureCount g + 1) % getPictureCount g))) ∧
    getToken (apiPhoto g (some t) Mode.next rA rB).2 t =
      some { row with current_index :=
        (row.current_index % getPictureCount g + 1) % getPictureCount g } := by
  have hc : getPictureCount g ≠ 0 := Nat.pos_iff_ne_zero.mp hn
  have hmod : row.current_index % getPictureCount g < getPictureCount g :=
    Nat.mod_lt _ hn
  obtain ⟨hlt, hsome⟩ := getPictureByIndex_eq_some hmod
  have heq := apiPhoto_next_eq g t row rA rB ht hrow hc
  refine ⟨⟨hlt, ?_⟩, ?_⟩
  · rw [heq, hsome]
  · rw [heq]
    simp only [getToken_updateTokenIndex, hrow]
    rfl

/-- Witness for the amended C1 theorem: the scenario itself.  Pictures
`{1, 2}`, token at stored cursor 0: the delivery serves ordinal `0 % 2 = 0`
(picture 1) and persists `(0 + 1) % 2 = 1`. -/
theorem seq_delivery_serves_mod_and_persists_reduced_witness :
    getToken (⟨[1, 2], [("T", ⟨0, none, 0⟩)]⟩ : GalleryDB) "T" =
      some ⟨0, none, 0⟩ ∧
    getToken (apiPhoto ⟨[1, 2], [("T", ⟨0, none, 0⟩)]⟩ (some "T") Mode.next
        (fun _ => 0) (fun _ => 0)).2 "T" =
      some { current_index := 1, random_ids := none, random_index := 0 } := by
  refine ⟨by decide, ?_⟩
  have h := seq_delivery_serves_mod_and_persists_reduced
    ⟨[1, 2], [("T", ⟨0, none, 0⟩)]⟩ "T" ⟨0, none, 0⟩ (fun _ => 0) (fun _ => 0)
    (by decide) (by decide) (by decide)
  exact h.2

/-! ### Iterated sequential delivery -/

/-- The outcome component of a delivery that resolved ordinal `i`: the
handler's final `if (!pic)` check maps a missing row to the generic 404. -/
def serveOrdinal (g : GalleryDB) (i : Nat) : Outcome :=
  match getPictureByIndex g i with
  | none => Outcome.notFound "Not found"
  | some p => Outcome.served p

/-- `k` consecutive sequential deliveries with the same token: the list of
outcomes in order, and the final database. -/
def seqOutputs (rA rB : Nat → Nat) (g : GalleryDB) (t : String) :
    Nat → List Outcome × GalleryDB
  | 0 => ([], g)
  | Nat.succ k =>
    let r := apiPhoto g (some t) Mode.next rA rB
    let rest := seqOutputs rA rB r.2 t k
    (r.1 :: rest.1, rest.2)

/-- Invariant of iterated sequential delivery: starting from stored cursor
`c`, the `j`-th delivery serves ordinal `(c + j) mod n`, the pictures table
is untouched, and the stored cursor stays congruent to `c + k` modulo `n`. -/
lemma seqOutputs_spec (rA rB : Nat → Nat) (t : String) :
    ∀ (k : Nat) (g : GalleryDB) (row : TokenRow), t ≠ "" →
      getToken g t = some row → 0 < getPictureCount g →
      (seqOutputs rA rB g t k).1 =
        (List.range k).map
          (fun j => serveOrdinal g ((row.current_index + j) % getPictureCount g)) ∧
      (seqOutputs rA rB g t k).2.pictures = g.pictures ∧
      ∃ c, getToken (seqOutputs rA rB g t k).2 t =
          some { row with current_index := c } ∧
        c % getPictureCount g =
          (row.current_index + k) % getPictureCount g := by
  intro k
  induction k with
  | zero =>
    intro g row ht hrow hn
    refine ⟨by simp [seqOutputs], rfl, row.current_index, ?_, rfl⟩
    simpa [seqOutputs] using hrow
  | succ k ih =>
    intro g row ht hrow hn
    have hc : getPictureCount g ≠ 0 := Nat.pos_iff_ne_zero.mp hn
    have hstep := apiPhoto_next_eq g t row rA rB ht hrow hc
    set n := getPictureCount g with hn'
    set g' := updateTokenIndex g t
      ((row.current_index % n + 1) % n) with hg'
    have hrow' : getToken g' t =
        some { row with current_index := (row.current_index % n + 1) % n } := by
      rw [hg', getToken_updateTokenIndex, hrow]
      rfl
    have hpics' : g'.pictures = g.pictures := rfl
    have hcount' : getPictureCount g' = n := by rw [hn']; rfl
    have hn2 : 0 < getPictureCount g' := by rw [hcount']; exact hn
    obtain ⟨ih1, ih2, c, ihc, ihmod⟩ :=
      ih g' { row with current_index := (row.current_index % n + 1) % n }
        ht hrow' hn2
    have hfst : (apiPhoto g (some t) Mode.next rA rB).2 = g' := by
      rw [hstep]
    have hout : (apiPhoto g (some t) Mode.next rA rB).1 =
        serveOrdinal g (row.current_index % n) := by
      rw [hstep]
      rfl
    have hserve' : ∀ i, serveOrdinal g' i = serveOrdinal g i := by
      intro i
      unfold serveOrdinal getPictureByIndex sortedIds
      rw [hpics']
    have harith : ∀ j, ((row.current_index % n + 1) % n + j) % n =
        (row.current_index + (j + 1)) % n := by
      intro j
      rw [Nat.mod_add_mod, Nat.add_assoc, Nat.mod_add_mod, Nat.add_comm 1 j]
    refine ⟨?_, ?_, ?_⟩
    · show (apiPhoto g (some t) Mode.next rA rB).1 ::
        (seqOutputs rA rB (apiPhoto g (some t) Mode.next rA rB).2 t k).1 = _
      rw [hfst, hout, ih1, List.range_succ_eq_map, List.map_cons, List.map_map]
      refine congrArg₂ List.cons rfl ?_
      refine List.map_congr_left ?_
      intro j _
      show serveOrdinal g' (((row.current_index % n + 1) % n + j) % getPictureCount g') =
        serveOrdinal g ((row.current_index + (j + 1)) % n)
      rw [hserve', hcount', harith j]
    · show (seqOutputs rA rB (apiPhoto g (some t) Mode.next rA rB).2 t k).2.pictures = _
      rw [hfst, ih2, hpics']
    · refine ⟨c, ?_, ?_⟩
      · show getToken (seqOutputs rA rB (apiPhoto g (some t) Mode.next rA rB).2 t k).2 t = _
        rw [hfst, ihc]
      · rw [hcount'] at ihmod
        rw [ihmod, harith k]

/-- Serving ordinals `0 mod n, 1 mod n, ..., (n-1) mod n` serves the sorted
enumeration. -/
lemma range_map_serveOrdinal (g : GalleryDB) :
    (List.range (getPictureCount g)).map
      (fun j => serveOrdinal g (j % getPictureCount g)) =
    (sortedIds g).map Outcome.served := by
  apply List.ext_getElem
  · rw [List.length_map, List.length_range, List.length_map, length_sortedIds]
  · intro i h1 h2
    rw [List.getElem_map, List.getElem_range, List.getElem_map]
    have hi : i < getPictureCount g := by
      rw [List.length_map, List.length_range] at h1
      exact h1
    rw [Nat.mod_eq_of_lt hi]
    obtain ⟨hlt, hsome⟩ := getPictureByIndex_eq_some hi
    unfold serveOrdinal
    rw [hsome]
    rfl

/-- C2: against a non-empty unmutated collection of size `n`, `n` sequential
deliveries from stored cursor 0 serve the pictures in strict ascending-id
order (each ordinal exactly once), and the `(n+1)`-th delivery serves
ordinal 0 again. -/
theorem seq_cycle_visits_each_ordinal_once (g : GalleryDB) (t : String)
    (row : TokenRow) (rA rB : Nat → Nat) (ht : t ≠ "")
    (hrow : getToken g t = some row) (hzero : row.current_index = 0)
    (hn : 0 < getPictureCount g) (hnd : g.pictures.Nodup) :
    (seqOutputs rA rB g t (getPictureCount g)).1 =
      (sortedIds g).map Outcome.served ∧
    (sortedIds g).Sorted (· < ·) ∧
    ∃ h0 : 0 < (sortedIds g).length,
      (seqOutputs rA rB g t (getPictureCount g + 1)).1 =
        (sortedIds g).map Outcome.served ++
          [Outcome.served ((sortedIds g).get ⟨0, h0⟩)] := by
  have h0 : 0 < (sortedIds g).length := by rw [length_sortedIds]; exact hn
  have hspec1 := (seqOutputs_spec rA rB t (getPictureCount g) g row ht hrow hn).1
  have hspec2 :=
    (seqOutputs_spec rA rB t (getPictureCount g + 1) g row ht hrow hn).1
  rw [hzero] at hspec1 hspec2
  simp only [Nat.zero_add] at hspec1 hspec2
  refine ⟨?_, sortedIds_sorted_lt hnd, h0, ?_⟩
  · rw [hspec1, range_map_serveOrdinal]
  · rw [hspec2, List.range_succ, List.map_append, range_map_serveOrdinal]
    have hlast : serveOrdinal g (getPictureCount g % getPictureCount g) =
        Outcome.served ((sortedIds g).get ⟨0, h0⟩) := by
      rw [Nat.mod_self]
      obtain ⟨hlt, hsome⟩ := getPictureByIndex_eq_some hn
      unfold serveOrdinal
      rw [hsome]
    rw [List.map_singleton, hlast]

/-- Witness for C2: pictures `{2, 1}` (stored unsorted), token at cursor 0:
two deliveries serve ids 1 then 2, and a third serves 1 again. -/
theorem seq_cycle_visits_each_ordinal_once_witness :
    (seqOutputs (fun _ => 0) (fun _ => 0)
        ⟨[2, 1], [("T", ⟨0, none, 0⟩)]⟩ "T" 2).1 =
      [Outcome.served 1, Outcome.served 2] ∧
    (seqOutputs (fun _ => 0) (fun _ => 0)
        ⟨[2, 1], [("T", ⟨0, none, 0⟩)]⟩ "T" 3).1 =
      [Outcome.served 1, Outcome.served 2, Outcome.served 1] := by
  have h := seq_cycle_visits_each_ordinal_once
    ⟨[2, 1], [("T", ⟨0, none, 0⟩)]⟩ "T" ⟨0, none, 0⟩ (fun _ => 0) (fun _ => 0)
    (by decide) (by decide) (by decide) (by decide) (by decide)
  obtain ⟨h1, _, _, h2⟩ := h
  exact ⟨h1.trans rfl, h2.trans rfl⟩

/-! ### The randomized branch -/

/-- Characterization of a randomized delivery that reads a usable cached
permutation (`random_ids` present, cursor in range): the handler resolves the
id at the cursor, advances the cursor (regenerating when the advanced cursor
reaches the permutation length), persists, and only then maps a failed
resolution to the generic 404. -/
lemma apiPhoto_random_cached (g : GalleryDB) (t : String) (row : TokenRow)
    (P : List Nat) (rA rB : Nat → Nat) (ht : t ≠ "")
    (hrow : getToken g t = some row) (hc : getPictureCount g ≠ 0)
    (hP : row.random_ids = some P) (hidx : row.random_index < P.length) :
    apiPhoto g (some t) Mode.random rA rB =
      ((match getPictureById g P[row.random_index] with
        | none => Outcome.notFound "Not found"
        | some p => Outcome.served p),
       if P.length ≤ row.random_index + 1 then
         updateTokenRandomState g t (shuffle rB (getAllPictureIds g)) 0
       else updateTokenRandomState g t P (row.random_index + 1)) := by
  have hPne : P ≠ [] := by
    intro h
    rw [h] at hidx
    simp at hidx
  have h1 : P.isEmpty = false := by
    cases P with
    | nil => exact absurd rfl hPne
    | cons a l => rfl
  have h2 : decide (P.length ≤ row.random_index) = false := by
    rw [decide_eq_false_iff_not]
    omega
  have hregen : needsRegen (some P) row.random_index = false := by
    simp only [needsRegen]
    rw [h1, h2]
    rfl
  have hget : P[row.random_index]? = some P[row.random_index] :=
    List.getElem?_eq_getElem hidx
  by_cases hlen : P.length ≤ row.random_index + 1 <;>
    cases hres : getPictureById g P[row.random_index] <;>
      simp [apiPhoto, ht, hc, hrow, getTokenRandomState, hP, hregen, hget,
        hres, hlen]

/-- Characterization of a randomized delivery whose cached state triggers
regeneration (absent, empty, or exhausted): the handler shuffles the live
`allIds()`, serves the first entry of the fresh permutation, advances the
cursor to 1 (regenerating again if the fresh permutation has length 1), and
persists. -/
lemma apiPhoto_random_regen (g : GalleryDB) (t : String) (row : TokenRow)
    (rA rB : Nat → Nat) (ht : t ≠ "") (hrow : getToken g t = some row)
    (hc : getPictureCount g ≠ 0)
    (hregen : needsRegen row.random_ids row.random_index = true) :
    ∃ h0 : 0 < (shuffle rA (getAllPictureIds g)).length,
      apiPhoto g (some t) Mode.random rA rB =
        ((match getPictureById g (shuffle rA (getAllPictureIds g))[0] with
          | none => Outcome.notFound "Not found"
          | some p => Outcome.served p),
         if (shuffle rA (getAllPictureIds g)).length ≤ 1 then
           updateTokenRandomState g t (shuffle rB (getAllPictureIds g)) 0
         else updateTokenRandomState g t (shuffle rA (getAllPictureIds g)) 1) := by
  have h0 : 0 < (shuffle rA (getAllPictureIds g)).length := by
    rw [length_shuffle]
    unfold getAllPictureIds
    rw [length_sortedIds]
    exact Nat.pos_of_ne_zero hc
  have hget : (shuffle rA (getAllPictureIds g))[0]? =
      some (shuffle rA (getAllPictureIds g))[0] :=
    List.getElem?_eq_getElem h0
  refine ⟨h0, ?_⟩
  by_cases hlen : (shuffle rA (getAllPictureIds g)).length ≤ 1 <;>
    cases hres : getPictureById g (shuffle rA (getAllPictureIds g))[0] <;>
      simp [apiPhoto, ht, hc, hrow, getTokenRandomState, hregen, hget,
        hres, hlen]

/-- C4: when the cached permutation entry at the current cursor is an id that
no longer resolves in the picture store, the randomized delivery returns the
generic not-found outcome to the caller — it does not skip ahead and serves
no picture. -/
theorem stale_cached_id_returns_not_found (g : GalleryDB) (t : String)
    (row : TokenRow) (P : List Nat) (rA rB : Nat → Nat) (ht : t ≠ "")
    (hrow : getToken g t = some row) (hn : 0 < getPictureCount g)
    (hP : row.random_ids = some P) (hidx : row.random_index < P.length)
    (hstale : getPictureById g P[row.random_index] = none) :
    (apiPhoto g (some t) Mode.random rA rB).1 = Outcome.notFound "Not found" ∧
    ∀ p, (apiPhoto g (some t) Mode.random rA rB).1 ≠ Outcome.served p := by
  have heq := apiPhoto_random_cached g t row P rA rB ht hrow
    (Nat.pos_iff_ne_zero.mp hn) hP hidx
  rw [heq]
  rw [hstale]
  exact ⟨rfl, fun p => Outcome.noConfusion⟩

/-- Witness for C4: pictures `{1, 2}`, token `T` caching permutation
`[9, 1]` at cursor 0; id 9 was deleted, so the delivery yields 404. -/
theorem stale_cached_id_returns_not_found_witness :
    (apiPhoto ⟨[1, 2], [("T", ⟨0, some [9, 1], 0⟩)]⟩ (some "T") Mode.random
        (fun _ => 0) (fun _ => 0)).1 = Outcome.notFound "Not found" :=
  (stale_cached_id_returns_not_found ⟨[1, 2], [("T", ⟨0, some [9, 1], 0⟩)]⟩
    "T" ⟨0, some [9, 1], 0⟩ [9, 1] (fun _ => 0) (fun _ => 0)
    (by decide) (by decide) (by decide) (by decide) (by decide) (by decide)).1

/-- C9: when resolution of the cached id fails, the token's randomized state
is nevertheless advanced and persisted — the cursor is incremented, or the
permutation regenerated, exactly as on success — before the not-found outcome
is returned. -/
theorem stale_resolution_still_advances_state (g : GalleryDB) (t : String)
    (row : TokenRow) (P : List Nat) (rA rB : Nat → Nat) (ht : t ≠ "")
    (hrow : getToken g t = some row) (hn : 0 < getPictureCount g)
    (hP : row.random_ids = some P) (hidx : row.random_index < P.length)
    (hstale : getPictureById g P[row.random_index] = none) :
    apiPhoto g (some t) Mode.random rA rB =
      (Outcome.notFound "Not found",
       if P.length ≤ row.random_index + 1 then
         updateTokenRandomState g t (shuffle rB (getAllPictureIds g)) 0
       else updateTokenRandomState g t P (row.random_index + 1)) ∧
    getToken (apiPhoto g (some t) Mode.random rA rB).2 t =
      some { row with
        random_ids := some (if P.length ≤ row.random_index + 1 then
          shuffle rB (getAllPictureIds g) else P),
        random_index := if P.length ≤ row.random_index + 1 then 0
          else row.random_index + 1 } := by
  have heq := apiPhoto_random_cached g t row P rA rB ht hrow
    (Nat.pos_iff_ne_zero.mp hn) hP hidx
  rw [heq, hstale]
  by_cases hlen : P.length ≤ row.random_index + 1
  · rw [if_pos hlen]
    refine ⟨rfl, ?_⟩
    rw [if_pos hlen, if_pos hlen]
    rw [getToken_updateTokenRandomState, hrow]
    rfl
  · rw [if_neg hlen]
    refine ⟨rfl, ?_⟩
    rw [if_neg hlen, if_neg hlen]
    rw [getToken_updateTokenRandomState, hrow]
    rfl

/-- Witness for C9: in the C4 scenario (permutation `[9, 1]`, cursor 0,
id 9 deleted) the persisted state after the failed delivery is the advanced
cursor 1 over the same cached permutation. -/
theorem stale_resolution_still_advances_state_witness :
    getToken (apiPhoto ⟨[1, 2], [("T", ⟨0, some [9, 1], 0⟩)]⟩ (some "T")
        Mode.random (fun _ => 0) (fun _ => 0)).2 "T" =
      some { current_index := 0, random_ids := some [9, 1],
             random_index := 1 } := by
  have h := (stale_resolution_still_advances_state
    ⟨[1, 2], [("T", ⟨0, some [9, 1], 0⟩)]⟩ "T" ⟨0, some [9, 1], 0⟩ [9, 1]
    (fun _ => 0) (fun _ => 0)
    (by decide) (by decide) (by decide) (by decide) (by decide) (by decide)).2
  exact h.trans (by decide)

/-- A fresh shuffle of the live id list is non-empty whenever the collection
is. -/
lemma shuffle_allIds_ne_nil {g : GalleryDB} (hn : 0 < getPictureCount g)
    (r : Nat → Nat) : shuffle r (getAllPictureIds g) ≠ [] := by
  apply List.ne_nil_of_length_pos
  rw [length_shuffle]
  unfold getAllPictureIds
  rw [length_sortedIds]
  exact hn

/-- C10: after every completed delivery against a non-empty collection the
persisted token state is in range: sequential mode persists a cursor in
`[0, n)`, and randomized mode persists a non-empty permutation with a cursor
strictly below its length (a fresh regeneration is persisted at cursor 0). -/
theorem delivery_persists_in_range_state (g : GalleryDB) (t : String)
    (row : TokenRow) (rA rB : Nat → Nat) (ht : t ≠ "")
    (hrow : getToken g t = some row) (hn : 0 < getPictureCount g) :
    (∃ c, getToken (apiPhoto g (some t) Mode.next rA rB).2 t =
        some { row with current_index := c } ∧ c < getPictureCount g) ∧
    (∃ l i, getToken (apiPhoto g (some t) Mode.random rA rB).2 t =
        some { row with random_ids := some l, random_index := i } ∧
      l ≠ [] ∧ i < l.length) := by
  constructor
  · obtain ⟨_, hcur⟩ := seq_delivery_serves_mod_and_persists_reduced
      g t row rA rB ht hrow hn
    exact ⟨_, hcur, Nat.mod_lt _ hn⟩
  · by_cases hregen : needsRegen row.random_ids row.random_index = true
    · obtain ⟨h0, heq⟩ := apiPhoto_random_regen g t row rA rB ht hrow
        (Nat.pos_iff_ne_zero.mp hn) hregen
      rw [heq]
      by_cases hlen : (shuffle rA (getAllPictureIds g)).length ≤ 1
      · rw [if_pos hlen]
        refine ⟨shuffle rB (getAllPictureIds g), 0, ?_, shuffle_allIds_ne_nil hn rB, ?_⟩
        · rw [getToken_updateTokenRandomState, hrow]
          rfl
        · rw [length_shuffle]
          unfold getAllPictureIds
          rw [length_sortedIds]
          exact hn
      · rw [if_neg hlen]
        refine ⟨shuffle rA (getAllPictureIds g), 1, ?_, shuffle_allIds_ne_nil hn rA, ?_⟩
        · rw [getToken_updateTokenRandomState, hrow]
          rfl
        · omega
    · have hfalse : needsRegen row.random_ids row.random_index = false := by
        cases hx : needsRegen row.random_ids row.random_index
        · rfl
        · exact absurd hx hregen
      obtain ⟨P, hP, hidx⟩ : ∃ P, row.random_ids = some P ∧
          row.random_index < P.length := by
        cases hids : row.random_ids with
        | none =>
          exfalso
          apply hregen
          unfold needsRegen
          rw [hids]
        | some P =>
          refine ⟨P, rfl, ?_⟩
          unfold needsRegen at hfalse
          rw [hids] at hfalse
          rcases Bool.or_eq_false_iff.mp hfalse with ⟨_, hd⟩
          have := decide_eq_false_iff_not.mp hd
          omega
      have heq := apiPhoto_random_cached g t row P rA rB ht hrow
        (Nat.pos_iff_ne_zero.mp hn) hP hidx
      rw [heq]
      by_cases hlen : P.length ≤ row.random_index + 1
      · rw [if_pos hlen]
        refine ⟨shuffle rB (getAllPictureIds g), 0, ?_,
          shuffle_allIds_ne_nil hn rB, ?_⟩
        · cases hres : getPictureById g P[row.random_index] <;>
            · rw [getToken_updateTokenRandomState, hrow]
              rfl
        · rw [length_shuffle]
          unfold getAllPictureIds
          rw [length_sortedIds]
          exact hn
      · rw [if_neg hlen]
        refine ⟨P, row.random_index + 1, ?_, ?_, by omega⟩
        · cases hres : getPictureById g P[row.random_index] <;>
            · rw [getToken_updateTokenRandomState, hrow]
              rfl
        · intro hnil
          rw [hnil] at hidx
          simp at hidx

/-- Witness for C10: pictures `{1, 2}`, token with no cached randomized
state and cursor 7: both modes persist in-range state. -/
theorem delivery_persists_in_range_state_witness :
    (∃ c, getToken (apiPhoto ⟨[1, 2], [("T", ⟨7, none, 0⟩)]⟩ (some "T")
        Mode.next (fun _ => 0) (fun _ => 0)).2 "T" =
        some { current_index := c, random_ids := none, random_index := 0 } ∧
      c < getPictureCount (⟨[1, 2], [("T", ⟨7, none, 0⟩)]⟩ : GalleryDB)) ∧
    (∃ l i, getToken (apiPhoto ⟨[1, 2], [("T", ⟨7, none, 0⟩)]⟩ (some "T")
        Mode.random (fun _ => 0) (fun _ => 0)).2 "T" =
        some { current_index := 7, random_ids := some l, random_index := i } ∧
      l ≠ [] ∧ i < l.length) :=
  delivery_persists_in_range_state ⟨[1, 2], [("T", ⟨7, none, 0⟩)]⟩ "T"
    ⟨7, none, 0⟩ (fun _ => 0) (fun _ => 0) (by decide) (by decide) (by decide)

/-! ### Token and emptiness checks (C5, C6) -/

/-- C5 counterexample: the emptiness check precedes the token check, so a
delivery presenting an unknown token against an *empty* gallery receives the
empty-collection outcome, not `Forbidden`, in both modes. -/
theorem unknown_token_empty_gallery_counterexample :
    getToken ⟨[], []⟩ "x" = none ∧
    (apiPhoto ⟨[], []⟩ (some "x") Mode.next (fun _ => 0) (fun _ => 0)).1 =
      Outcome.notFound "No pictures in gallery" ∧
    (apiPhoto ⟨[], []⟩ (some "x") Mode.random (fun _ => 0) (fun _ => 0)).1 =
      Outcome.notFound "No pictures in gallery" ∧
    (apiPhoto ⟨[], []⟩ (some "x") Mode.next (fun _ => 0) (fun _ => 0)).1 ≠
      Outcome.forbidden "Invalid or revoked token" ∧
    (apiPhoto ⟨[], []⟩ (some "x") Mode.random (fun _ => 0) (fun _ => 0)).1 ≠
      Outcome.forbidden "Invalid or revoked token" := by
  refine ⟨rfl, by decide, by decide, by decide, by decide⟩

/-- C5 amended: for every delivery presenting a token unknown to the token
registry (never created or deleted), in either mode, against any gallery
state *with at least one picture*, the outcome is `Forbidden` — one fixed
outcome that does not distinguish a never-existing token from a revoked one;
with zero pictures the empty-collection outcome takes precedence because the
emptiness check runs before the token check. -/
theorem unknown_token_forbidden (g : GalleryDB) (t : String) (mode : Mode)
    (rA rB : Nat → Nat) (ht : t ≠ "") (hn : 0 < getPictureCount g)
    (hunk : getToken g t = none) :
    apiPhoto g (some t) mode rA rB =
      (Outcome.forbidden "Invalid or revoked token", g) := by
  have hc : getPictureCount g ≠ 0 := Nat.pos_iff_ne_zero.mp hn
  simp [apiPhoto, if_neg ht, if_neg hc, hunk]

/-- Witness for the amended C5: a non-empty gallery whose token table does
not contain `"x"` (it holds a different token, as after a revocation). -/
theorem unknown_token_forbidden_witness :
    apiPhoto ⟨[5], [("other", ⟨0, none, 0⟩)]⟩ (some "x") Mode.random
        (fun _ => 0) (fun _ => 0) =
      (Outcome.forbidden "Invalid or revoked token",
       ⟨[5], [("other", ⟨0, none, 0⟩)]⟩) :=
  unknown_token_forbidden ⟨[5], [("other", ⟨0, none, 0⟩)]⟩ "x" Mode.random
    (fun _ => 0) (fun _ => 0) (by decide) (by decide) (by decide)

/-- C6: a delivery against a gallery with zero pictures yields the
`EmptyCollection` outcome in both modes, and that outcome is distinguishable
by the caller from the generic not-found outcome (the response bodies
differ; both use HTTP status 404). -/
theorem empty_gallery_yields_empty_collection (g : GalleryDB) (t : String)
    (mode : Mode) (rA rB : Nat → Nat) (ht : t ≠ "")
    (hempty : getPictureCount g = 0) :
    apiPhoto g (some t) mode rA rB = (emptyCollectionOutcome, g) ∧
    emptyCollectionOutcome ≠ genericNotFoundOutcome := by
  refine ⟨?_, by decide⟩
  simp [apiPhoto, if_neg ht, hempty, emptyCollectionOutcome]

/-- Witness for C6: the empty gallery with a registered token still gets the
empty-collection outcome. -/
theorem empty_gallery_yields_empty_collection_witness :
    apiPhoto ⟨[], [("T", ⟨0, none, 0⟩)]⟩ (some "T") Mode.random
        (fun _ => 0) (fun _ => 0) =
      (emptyCollectionOutcome, ⟨[], [("T", ⟨0, none, 0⟩)]⟩) ∧
    emptyCollectionOutcome ≠ genericNotFoundOutcome :=
  empty_gallery_yields_empty_collection ⟨[], [("T", ⟨0, none, 0⟩)]⟩ "T"
    Mode.random (fun _ => 0) (fun _ => 0) (by decide) (by decide)

/-! ### Iterated randomized delivery (C3) -/

/-- `k` consecutive randomized deliveries with the same token, one oracle
pair (for the up to two shuffles of a request) per call. -/
def randOutputs : GalleryDB → String → List ((Nat → Nat) × (Nat → Nat)) →
    List Outcome × GalleryDB
  | g, _, [] => ([], g)
  | g, t, o :: os =>
    let r := apiPhoto g (some t) Mode.random o.1 o.2
    let rest := randOutputs r.2 t os
    (r.1 :: rest.1, rest.2)

/-- Serving out a cached permutation: starting mid-cycle at cursor `i` over a
cached permutation `P` of resolvable ids, the remaining `|P| - i` deliveries
serve `P[i], ..., P[|P|-1]` in order. -/
lemma randOutputs_from_cached (t : String) :
    ∀ (os : List ((Nat → Nat) × (Nat → Nat))) (g : GalleryDB)
      (row : TokenRow) (P : List Nat) (i : Nat),
      t ≠ "" → getToken g t = some row → row.random_ids = some P →
      row.random_index = i → P.length = getPictureCount g →
      0 < getPictureCount g → (∀ x ∈ P, x ∈ g.pictures) →
      os.length + i = P.length →
      (randOutputs g t os).1 = (P.drop i).map Outcome.served := by
  intro os
  induction os with
  | nil =>
    intro g row P i _ _ _ _ _ _ _ hlen
    have hdrop : P.drop i = [] := by
      apply List.drop_eq_nil_of_le
      simp only [List.length_nil] at hlen
      omega
    simp [randOutputs, hdrop]
  | cons o os ih =>
    intro g row P i ht hrow hP hi hlenP hn hmem hlen
    subst hi
    have hidx : row.random_index < P.length := by
      simp only [List.length_cons] at hlen
      omega
    have heq := apiPhoto_random_cached g t row P o.1 o.2 ht hrow
      (Nat.pos_iff_ne_zero.mp hn) hP hidx
    have hresolve : getPictureById g P[row.random_index] = some P[row.random_index] :=
      getPictureById_eq_some_of_mem (hmem _ (P.getElem_mem hidx))
    rw [hresolve] at heq
    have hdrop : P.drop row.random_index =
        P[row.random_index] :: P.drop (row.random_index + 1) :=
      List.drop_eq_getElem_cons hidx
    show (apiPhoto g (some t) Mode.random o.1 o.2).1 ::
      (randOutputs (apiPhoto g (some t) Mode.random o.1 o.2).2 t os).1 = _
    rw [hdrop, List.map_cons]
    by_cases hlast : P.length ≤ row.random_index + 1
    · have hos : os = [] := by
        apply List.eq_nil_of_length_eq_zero
        simp only [List.length_cons] at hlen
        omega
      rw [heq]
      simp only [hos, randOutputs]
      have hdrop2 : P.drop (row.random_index + 1) = [] := by
        apply List.drop_eq_nil_of_le
        omega
      rw [hdrop2]
      rfl
    · have hg' : (apiPhoto g (some t) Mode.random o.1 o.2).2 =
          updateTokenRandomState g t P (row.random_index + 1) := by
        rw [heq, if_neg hlast]
      have hrow' : getToken (updateTokenRandomState g t P (row.random_index + 1)) t =
          some { row with random_ids := some P,
                          random_index := row.random_index + 1 } := by
        rw [getToken_updateTokenRandomState, hrow]
        rfl
      have hout : (apiPhoto g (some t) Mode.random o.1 o.2).1 =
          Outcome.served P[row.random_index] := by
        rw [heq, if_neg hlast]
      have htail := ih (updateTokenRandomState g t P (row.random_index + 1))
        { row with random_ids := some P, random_index := row.random_index + 1 }
        P (row.random_index + 1) ht hrow' rfl rfl hlenP hn
        (fun x hx => hmem x hx)
        (by simp only [List.length_cons] at hlen; omega)
      rw [hg', htail, hout]

/-- C3: starting from a state that triggers permutation regeneration, `n`
consecutive randomized deliveries against an unmutated non-empty collection
of size `n` serve every currently-existing picture id exactly once, in the
order of some permutation of `allIds()`. -/
theorem random_cycle_visits_every_id_once (g : GalleryDB) (t : String)
    (row : TokenRow) (oracles : List ((Nat → Nat) × (Nat → Nat)))
    (ht : t ≠ "") (hrow : getToken g t = some row)
    (hn : 0 < getPictureCount g) (hnd : g.pictures.Nodup)
    (hregen : needsRegen row.random_ids row.random_index = true)
    (hlen : oracles.length = getPictureCount g) :
    ∃ P : List Nat, (randOutputs g t oracles).1 = P.map Outcome.served ∧
      P.Perm (getAllPictureIds g) ∧ P.Nodup := by
  cases oracles with
  | nil =>
    exfalso
    rw [List.length_nil] at hlen
    omega
  | cons o os =>
    obtain ⟨h0, heq⟩ := apiPhoto_random_regen g t row o.1 o.2 ht hrow
      (Nat.pos_iff_ne_zero.mp hn) hregen
    set P := shuffle o.1 (getAllPictureIds g) with hPdef
    have hPperm : P.Perm (getAllPictureIds g) := shuffle_perm _ _
    have hPlen : P.length = getPictureCount g := by
      rw [hPperm.length_eq]
      unfold getAllPictureIds
      exact length_sortedIds g
    have hallNodup : (getAllPictureIds g).Nodup :=
      (sortedIds_perm g).nodup_iff.mpr hnd
    have hPnodup : P.Nodup := hPperm.nodup_iff.mpr hallNodup
    have hmemP : ∀ x ∈ P, x ∈ g.pictures := by
      intro x hx
      exact mem_pictures_of_mem_sortedIds (hPperm.mem_iff.mp hx)
    have hresolve : getPictureById g P[0] = some P[0] :=
      getPictureById_eq_some_of_mem (hmemP _ (P.getElem_mem h0))
    rw [hresolve] at heq
    refine ⟨P, ?_, hPperm, hPnodup⟩
    have hdrop : P.drop 0 = P[0] :: P.drop 1 := List.drop_eq_getElem_cons h0
    show (apiPhoto g (some t) Mode.random o.1 o.2).1 ::
      (randOutputs (apiPhoto g (some t) Mode.random o.1 o.2).2 t os).1 =
      P.map Outcome.served
    rw [show P.map Outcome.served = (P.drop 0).map Outcome.served from rfl,
      hdrop, List.map_cons]
    by_cases hone : P.length ≤ 1
    · have hos : os = [] := by
        apply List.eq_nil_of_length_eq_zero
        simp only [List.length_cons] at hlen
        omega
      rw [heq, if_pos hone]
      simp only [hos, randOutputs]
      have hdrop2 : P.drop 1 = [] := List.drop_eq_nil_of_le hone
      rw [hdrop2]
      rfl
    · have hg' : (apiPhoto g (some t) Mode.random o.1 o.2).2 =
          updateTokenRandomState g t P 1 := by
        rw [heq, if_neg hone]
      have hout : (apiPhoto g (some t) Mode.random o.1 o.2).1 =
          Outcome.served P[0] := by
        rw [heq, if_neg hone]
      have hrow' : getToken (updateTokenRandomState g t P 1) t =
          some { row with random_ids := some P, random_index := 1 } := by
        rw [getToken_updateTokenRandomState, hrow]
        rfl
      have htail := randOutputs_from_cached t os
        (updateTokenRandomState g t P 1)
        { row with random_ids := some P, random_index := 1 } P 1
        ht hrow' rfl rfl hPlen hn (fun x hx => hmemP x hx)
        (by simp only [List.length_cons] at hlen; omega)
      rw [hg', htail, hout]

/-- Witness for C3: pictures `{1, 2}`, token with no cached randomized
state, two deliveries. -/
theorem random_cycle_visits_every_id_once_witness :
    ∃ P : List Nat,
      (randOutputs ⟨[1, 2], [("T", ⟨0, none, 0⟩)]⟩ "T"
        [(fun _ => 0, fun _ => 0), (fun _ => 0, fun _ => 0)]).1 =
        P.map Outcome.served ∧
      P.Perm (getAllPictureIds ⟨[1, 2], [("T", ⟨0, none, 0⟩)]⟩) ∧ P.Nodup :=
  random_cycle_visits_every_id_once ⟨[1, 2], [("T", ⟨0, none, 0⟩)]⟩ "T"
    ⟨0, none, 0⟩ [(fun _ => 0, fun _ => 0), (fun _ => 0, fun _ => 0)]
    (by decide) (by decide) (by decide) (by decide) (by decide) (by decide)

/-! ## Tag store (src/config.js `getOrCreateTagId`, `setPictureTags`,
`getPictureTags`)

The `tags` table is a list of `(id, name)` rows with `AUTOINCREMENT` ids
(`nextTagId` is the next id to assign; SQLite assigns ids starting at 1);
`picture_tags` is the `(picture_id, tag_id)` association table; pictures are
again modelled by their ids. -/

/-- The tables the tag operations touch. -/
structure TagStore where
  pictures : List Nat
  tags : List (Nat × String)
  pictureTags : List (Nat × Nat)
  nextTagId : Nat
deriving DecidableEq, Repr

/-- `SELECT id FROM tags WHERE name = ?`. -/
def findTagByName (db : TagStore) (n : String) : Option (Nat × String) :=
  db.tags.find? (fun r => r.2 == n)

/-- `SELECT t.name FROM tags t WHERE t.id = ?` (the join direction used when
reading back a picture's tags). -/
def findTagNameById (db : TagStore) (i : Nat) : Option String :=
  (db.tags.find? (fun r => r.1 == i)).map (fun r => r.2)

/-- `getOrCreateTagId` (src/config.js): normalize the name; an empty slug
yields `null`; otherwise select the tag row by name, inserting it first
(with the next `AUTOINCREMENT` id) when missing, and return the row's id. -/
def getOrCreateTagId (db : TagStore) (name : String) : Option Nat × TagStore :=
  let n := normalizeTag name
  if n = "" then (none, db)
  else
    match findTagByName db n with
    | some r => (some r.1, db)
    | none =>
      let db1 : TagStore := { db with
        tags := db.tags ++ [(db.nextTagId, n)], nextTagId := db.nextTagId + 1 }
      match findTagByName db1 n with
      | some r => (some r.1, db1)
      | none => (none, db1)

/-- `tagNames.map((n) => getOrCreateTagId(n))`: the callback runs left to
right, threading the store. -/
def mapGetOrCreateTagId : TagStore → List String → List (Option Nat) × TagStore
  | db, [] => ([], db)
  | db, nm :: ns =>
    let r := getOrCreateTagId db nm
    let rest := mapGetOrCreateTagId r.2 ns
    (r.1 :: rest.1, rest.2)

/-- `.filter(Boolean)` on the mapped ids: drops `null` and the falsy id 0
(ids assigned by `AUTOINCREMENT` start at 1, so 0 never occurs in practice). -/
def jsFilterBoolean (l : List (Option Nat)) : List Nat :=
  l.filterMap (fun o => o.bind (fun x => if x = 0 then none else some x))

/-- `[...new Set(xs)]`: de-duplication keeping the first occurrence of each
element, in order. -/
def jsSetDedupAux (seen : List Nat) : List Nat → List Nat
  | [] => []
  | a :: l =>
    if a ∈ seen then jsSetDedupAux seen l
    else a :: jsSetDedupAux (a :: seen) l

/-- `[...new Set(xs)]`. -/
def jsSetDedup (l : List Nat) : List Nat :=
  jsSetDedupAux [] l

/-- `setPictureTags` (src/config.js): `NotFound` (false) when the picture
does not exist; otherwise delete the picture's associations, map the names
through `getOrCreateTagId`, drop falsy results, de-duplicate, and insert the
resulting `(picture_id, tag_id)` rows. -/
def setPictureTags (db : TagStore) (pictureId : Nat) (tagNames : List String) :
    Bool × TagStore :=
  if pictureId ∈ db.pictures then
    let db1 : TagStore := { db with
      pictureTags := db.pictureTags.filter (fun a => a.1 != pictureId) }
    let r := mapGetOrCreateTagId db1 tagNames
    let tagIds := jsSetDedup (jsFilterBoolean r.1)
    (true, { r.2 with
      pictureTags := r.2.pictureTags ++ tagIds.map (fun tid => (pictureId, tid)) })
  else (false, db)

/-- `getPictureTags` (src/config.js): the names of the tags associated with a
picture, `ORDER BY t.name` (alphabetical, modelled by insertion sort). -/
def getPictureTags (db : TagStore) (pictureId : Nat) : List String :=
  ((db.pictureTags.filter (fun a => a.1 == pictureId)).filterMap
    (fun a => findTagNameById db a.2)).insertionSort (fun a b => a ≤ b)

/-- Well-formedness of the tag table, maintained by every operation and
guaranteed by the schema: tag ids are unique (`PRIMARY KEY`), names are
unique (`UNIQUE`), ids are positive and below the `AUTOINCREMENT`
counter. -/
structure TagWF (db : TagStore) : Prop where
  ids_nodup : (db.tags.map Prod.fst).Nodup
  names_nodup : (db.tags.map Prod.snd).Nodup
  ids_lt : ∀ r ∈ db.tags, r.1 < db.nextTagId
  ids_pos : ∀ r ∈ db.tags, 0 < r.1
  next_pos : 0 < db.nextTagId

/-! ### Facts about the JavaScript `Set`-based de-duplication -/

/-- Membership in the de-duplicated list. -/
lemma mem_jsSetDedupAux {x : Nat} :
    ∀ (l seen : List Nat), x ∈ jsSetDedupAux seen l ↔ x ∈ l ∧ x ∉ seen := by
  intro l
  induction l with
  | nil => intro seen; simp [jsSetDedupAux]
  | cons a as ih =>
    intro seen
    by_cases ha : a ∈ seen
    · rw [jsSetDedupAux, if_pos ha, ih]
      constructor
      · rintro ⟨h1, h2⟩
        exact ⟨List.mem_cons_of_mem a h1, h2⟩
      · rintro ⟨h1, h2⟩
        rcases List.mem_cons.mp h1 with h3 | h3
        · exact absurd (h3 ▸ ha) h2
        · exact ⟨h3, h2⟩
    · rw [jsSetDedupAux, if_neg ha]
      constructor
      · intro h
        rcases List.mem_cons.mp h with h1 | h1
        · exact ⟨h1 ▸ List.mem_cons_self a as, h1 ▸ ha⟩
        · obtain ⟨h2, h3⟩ := (ih (a :: seen)).mp h1
          refine ⟨List.mem_cons_of_mem a h2, ?_⟩
          intro hx
          exact h3 (List.mem_cons_of_mem a hx)
      · rintro ⟨h1, h2⟩
        rcases List.mem_cons.mp h1 with h3 | h3
        · exact h3 ▸ List.mem_cons_self a _
        · by_cases hxa : x = a
          · exact hxa ▸ List.mem_cons_self a _
          · refine List.mem_cons_of_mem a ((ih (a :: seen)).mpr ⟨h3, ?_⟩)
            intro hx
            rcases List.mem_cons.mp hx with h4 | h4
            · exact hxa h4
            · exact h2 h4

/-- The de-duplicated list has no duplicates. -/
lemma nodup_jsSetDedupAux :
    ∀ (l seen : List Nat), (jsSetDedupAux seen l).Nodup := by
  intro l
  induction l with
  | nil => intro seen; simp [jsSetDedupAux]
  | cons a as ih =>
    intro seen
    by_cases ha : a ∈ seen
    · rw [jsSetDedupAux, if_pos ha]
      exact ih seen
    · rw [jsSetDedupAux, if_neg ha]
      refine List.nodup_cons.mpr ⟨?_, ih (a :: seen)⟩
      intro hmem
      exact ((mem_jsSetDedupAux as (a :: seen)).mp hmem).2 (List.mem_cons_self a seen)

/-- Membership in `[...new Set(xs)]`. -/
lemma mem_jsSetDedup {x : Nat} {l : List Nat} : x ∈ jsSetDedup l ↔ x ∈ l := by
  rw [jsSetDedup, mem_jsSetDedupAux]
  simp

/-- `[...new Set(xs)]` has no duplicates. -/
lemma nodup_jsSetDedup (l : List Nat) : (jsSetDedup l).Nodup :=
  nodup_jsSetDedupAux l []

/-- Membership in `.filter(Boolean)`. -/
lemma mem_jsFilterBoolean {i : Nat} {l : List (Option Nat)} :
    i ∈ jsFilterBoolean l ↔ some i ∈ l ∧ i ≠ 0 := by
  rw [jsFilterBoolean, List.mem_filterMap]
  constructor
  · rintro ⟨o, ho, heq⟩
    cases o with
    | none => simp at heq
    | some x =>
      rw [Option.some_bind] at heq
      by_cases hx : x = 0
      · rw [hx] at heq; simp at heq
      · rw [if_neg hx] at heq
        obtain rfl := Option.some.inj heq
        exact ⟨ho, hx⟩
  · rintro ⟨hmem, hne⟩
    exact ⟨some i, hmem, by rw [Option.some_bind, if_neg hne]⟩

/-! ### Facts about tag-row lookup -/

/-- With unique ids, looking a row's id up returns that row. -/
lemma find?_fst_eq_some_of_mem {tags : List (Nat × String)} {r : Nat × String}
    (hnd : (tags.map Prod.fst).Nodup) (hr : r ∈ tags) :
    tags.find? (fun x => x.1 == r.1) = some r := by
  induction tags with
  | nil => simp at hr
  | cons a as ih =>
    rw [List.map_cons, List.nodup_cons] at hnd
    rcases List.mem_cons.mp hr with h1 | h1
    · subst h1
      simp [List.find?]
    · have hne : (a.1 == r.1) = false := by
        rw [beq_eq_false_iff_ne]
        intro hfst
        exact hnd.1 (hfst ▸ List.mem_map_of_mem Prod.fst h1)
      rw [List.find?, hne]
      exact ih hnd.2 h1

/-- A successful name lookup by id under `TagWF`: the returned name pins
down the id. -/
lemma findTagNameById_inj {db : TagStore} (wf : TagWF db) {i j : Nat}
    {m : String} (hi : findTagNameById db i = some m)
    (hj : findTagNameById db j = some m) : i = j := by
  unfold findTagNameById at hi hj
  cases hfi : db.tags.find? (fun r => r.1 == i) with
  | none => rw [hfi] at hi; simp at hi
  | some ri =>
    cases hfj : db.tags.find? (fun r => r.1 == j) with
    | none => rw [hfj] at hj; simp at hj
    | some rj =>
      rw [hfi] at hi
      rw [hfj] at hj
      have hmi : ri ∈ db.tags := List.mem_of_find?_eq_some hfi
      have hmj : rj ∈ db.tags := List.mem_of_find?_eq_some hfj
      have hii : ri.1 = i :=
        beq_iff_eq.mp (@List.find?_some _ (fun r => r.1 == i) ri db.tags hfi)
      have hjj : rj.1 = j :=
        beq_iff_eq.mp (@List.find?_some _ (fun r => r.1 == j) rj db.tags hfj)
      have hni : ri.2 = m := Option.some.inj hi
      have hnj : rj.2 = m := Option.some.inj hj
      have hrr : ri = rj :=
        List.inj_on_of_nodup_map wf.names_nodup hmi hmj (by rw [hni, hnj])
      rw [← hii, ← hjj, hrr]

/-- Name lookup by id is stable under growing the tag table (ids stay
unique). -/
lemma findTagNameById_stable {db db' : TagStore}
    (hnd : (db'.tags.map Prod.fst).Nodup)
    (hsub : ∀ r ∈ db.tags, r ∈ db'.tags) {i : Nat} {m : String}
    (h : findTagNameById db i = some m) : findTagNameById db' i = some m := by
  unfold findTagNameById at h ⊢
  cases hf : db.tags.find? (fun r => r.1 == i) with
  | none => rw [hf] at h; simp at h
  | some ri =>
    rw [hf] at h
    have hmem := List.mem_of_find?_eq_some hf
    have hii : ri.1 = i :=
      beq_iff_eq.mp (@List.find?_some _ (fun r => r.1 == i) ri db.tags hf)
    have hfind' := find?_fst_eq_some_of_mem hnd (hsub ri hmem)
    rw [hii] at hfind'
    rw [hfind']
    exact h

/-- Full specification of `getOrCreateTagId`: it only grows the tag table,
returns `null` exactly for names normalizing to the empty slug, and
otherwise returns a positive id whose row carries the normalized name. -/
lemma getOrCreateTagId_spec (db : TagStore) (nm : String) (wf : TagWF db) :
    (getOrCreateTagId db nm).2.pictures = db.pictures ∧
    (getOrCreateTagId db nm).2.pictureTags = db.pictureTags ∧
    TagWF (getOrCreateTagId db nm).2 ∧
    (∀ r ∈ db.tags, r ∈ (getOrCreateTagId db nm).2.tags) ∧
    ((getOrCreateTagId db nm).1 = none ↔ normalizeTag nm = "") ∧
    (∀ i, (getOrCreateTagId db nm).1 = some i →
      findTagNameById (getOrCreateTagId db nm).2 i =
        some (normalizeTag nm) ∧ 0 < i) := by
  by_cases hn : normalizeTag nm = ""
  · have hgc : getOrCreateTagId db nm = (none, db) := by
      simp only [getOrCreateTagId, if_pos hn]
    rw [hgc]
    refine ⟨rfl, rfl, wf, fun r hr => hr, ⟨fun _ => hn, fun _ => rfl⟩, ?_⟩
    intro i hi
    exact absurd hi (by simp)
  · cases hfind : findTagByName db (normalizeTag nm) with
    | some r =>
      have hgc : getOrCreateTagId db nm = (some r.1, db) := by
        simp only [getOrCreateTagId, if_neg hn, hfind]
      rw [hgc]
      have hfind' : db.tags.find? (fun x => x.2 == normalizeTag nm) = some r :=
        hfind
      have hrmem : r ∈ db.tags := List.mem_of_find?_eq_some hfind'
      have hp := List.find?_some hfind'
      have hrname : r.2 = normalizeTag nm := beq_iff_eq.mp hp
      refine ⟨rfl, rfl, wf, fun x hx => hx, ?_, ?_⟩
      · exact ⟨fun h => absurd h (by simp), fun h => absurd h hn⟩
      · intro i hi
        obtain rfl : r.1 = i := Option.some.inj hi
        constructor
        · unfold findTagNameById
          rw [find?_fst_eq_some_of_mem wf.ids_nodup hrmem, Option.map_some',
            hrname]
        · exact wf.ids_pos r hrmem
    | none =>
      have hnotname : ∀ r ∈ db.tags, r.2 ≠ normalizeTag nm := by
        intro r hr heq2
        have hnone := List.find?_eq_none.mp hfind r hr
        rw [heq2] at hnone
        simp at hnone
      have hnotid : db.nextTagId ∉ db.tags.map Prod.fst := by
        intro hmem
        obtain ⟨r, hr, hfst⟩ := List.mem_map.mp hmem
        have := wf.ids_lt r hr
        omega
      have hnotname' : normalizeTag nm ∉ db.tags.map Prod.snd := by
        intro hmem
        obtain ⟨r, hr, hsnd⟩ := List.mem_map.mp hmem
        exact hnotname r hr hsnd
      have hfind1 : findTagByName { db with
          tags := db.tags ++ [(db.nextTagId, normalizeTag nm)],
          nextTagId := db.nextTagId + 1 } (normalizeTag nm) =
          some (db.nextTagId, normalizeTag nm) := by
        show (db.tags ++ [(db.nextTagId, normalizeTag nm)]).find?
          (fun x => x.2 == normalizeTag nm) = _
        rw [List.find?_append,
          show db.tags.find? (fun x => x.2 == normalizeTag nm) = none from hfind]
        simp [List.find?]
      have hgc : getOrCreateTagId db nm =
          (some db.nextTagId, { db with
            tags := db.tags ++ [(db.nextTagId, normalizeTag nm)],
            nextTagId := db.nextTagId + 1 }) := by
        simp only [getOrCreateTagId, if_neg hn, hfind, hfind1]
      have wf1 : TagWF { db with
          tags := db.tags ++ [(db.nextTagId, normalizeTag nm)],
          nextTagId := db.nextTagId + 1 } := by
        refine ⟨?_, ?_, ?_, ?_, ?_⟩
        · rw [List.map_append]
          exact wf.ids_nodup.append (List.nodup_singleton _)
            (List.disjoint_singleton.mpr hnotid)
        · rw [List.map_append]
          exact wf.names_nodup.append (List.nodup_singleton _)
            (List.disjoint_singleton.mpr hnotname')
        · intro r hr
          rcases List.mem_append.mp hr with h1 | h1
          · have := wf.ids_lt r h1
            show r.1 < db.nextTagId + 1
            omega
          · obtain rfl : r = (db.nextTagId, normalizeTag nm) := by simpa using h1
            show db.nextTagId < db.nextTagId + 1
            omega
        · intro r hr
          rcases List.mem_append.mp hr with h1 | h1
          · exact wf.ids_pos r h1
          · obtain rfl : r = (db.nextTagId, normalizeTag nm) := by simpa using h1
            exact wf.next_pos
        · simp
      rw [hgc]
      refine ⟨rfl, rfl, wf1, fun r hr => List.mem_append_left _ hr, ?_, ?_⟩
      · exact ⟨fun h => absurd h (by simp), fun h => absurd h hn⟩
      · intro i hi
        obtain rfl : db.nextTagId = i := Option.some.inj hi
        constructor
        · have hh := find?_fst_eq_some_of_mem wf1.ids_nodup
            (List.mem_append_right db.tags
              (List.mem_singleton_self (db.nextTagId, normalizeTag nm)))
          unfold findTagNameById
          rw [show ({ db with
              tags := db.tags ++ [(db.nextTagId, normalizeTag nm)],
              nextTagId := db.nextTagId + 1 } : TagStore).tags.find?
              (fun x => x.1 == db.nextTagId) =
              some (db.nextTagId, normalizeTag nm) from hh]
          rfl
        · exact wf.next_pos

/-- Specification of the state-threading `map` over `getOrCreateTagId`: the
picture tables are untouched, well-formedness is preserved, each non-null
returned id is positive and names some non-empty normalized input name in
the final table, and every non-empty normalized input name is named by some
returned id. -/
lemma mapGetOrCreateTagId_spec (ns : List String) :
    ∀ (db : TagStore), TagWF db →
      (mapGetOrCreateTagId db ns).2.pictures = db.pictures ∧
      (mapGetOrCreateTagId db ns).2.pictureTags = db.pictureTags ∧
      TagWF (mapGetOrCreateTagId db ns).2 ∧
      (∀ r ∈ db.tags, r ∈ (mapGetOrCreateTagId db ns).2.tags) ∧
      (∀ i, some i ∈ (mapGetOrCreateTagId db ns).1 →
        0 < i ∧ ∃ nm ∈ ns, normalizeTag nm ≠ "" ∧
          findTagNameById (mapGetOrCreateTagId db ns).2 i =
            some (normalizeTag nm)) ∧
      (∀ nm ∈ ns, normalizeTag nm ≠ "" →
        ∃ i, some i ∈ (mapGetOrCreateTagId db ns).1 ∧
          findTagNameById (mapGetOrCreateTagId db ns).2 i =
            some (normalizeTag nm)) := by
  induction ns with
  | nil =>
    intro db wf
    refine ⟨rfl, rfl, wf, fun r hr => hr, ?_, ?_⟩
    · intro i hi
      simp [mapGetOrCreateTagId] at hi
    · intro nm hnm
      simp at hnm
  | cons nm ns ih =>
    intro db wf
    obtain ⟨hpic1, hpt1, hwf1, hsub1, hiff1, hsome1⟩ :=
      getOrCreateTagId_spec db nm wf
    obtain ⟨hpic2, hpt2, hwf2, hsub2, hb2, hc2⟩ :=
      ih (getOrCreateTagId db nm).2 hwf1
    have heq : mapGetOrCreateTagId db (nm :: ns) =
        ((getOrCreateTagId db nm).1 ::
          (mapGetOrCreateTagId (getOrCreateTagId db nm).2 ns).1,
         (mapGetOrCreateTagId (getOrCreateTagId db nm).2 ns).2) := rfl
    rw [heq]
    refine ⟨hpic2.trans hpic1, hpt2.trans hpt1, hwf2,
      fun r hr => hsub2 r (hsub1 r hr), ?_, ?_⟩
    · intro i hi
      rcases List.mem_cons.mp hi with h1 | h1
      · obtain ⟨hname1, hpos⟩ := hsome1 i h1.symm
        have hne : normalizeTag nm ≠ "" := by
          intro hempty
          rw [← hiff1] at hempty
          rw [hempty] at h1
          simp at h1
        exact ⟨hpos, nm, List.mem_cons_self nm ns, hne,
          findTagNameById_stable hwf2.ids_nodup hsub2 hname1⟩
      · obtain ⟨hpos, nm', hmem, hne, hname⟩ := hb2 i h1
        exact ⟨hpos, nm', List.mem_cons_of_mem nm hmem, hne, hname⟩
    · intro nm' hmem hne
      rcases List.mem_cons.mp hmem with h1 | h1
      · subst h1
        cases hr1 : (getOrCreateTagId db nm').1 with
        | none => exact absurd (hiff1.mp hr1) hne
        | some i =>
          obtain ⟨hname1, _⟩ := hsome1 i hr1
          exact ⟨i, List.mem_cons_self (some i) _,
            findTagNameById_stable hwf2.ids_nodup hsub2 hname1⟩
      · obtain ⟨i, hmem2, hname⟩ := hc2 nm' h1 hne
        exact ⟨i, List.mem_cons_of_mem _ hmem2, hname⟩

/-- C8: `setTags` replaces a picture's full tag set with the de-duplicated
normalized names — after the call the picture's tag names are exactly the
non-empty normalized input names, each associated once — names normalizing
to the empty slug are silently dropped, a missing picture yields the
not-found signal (`false`) with the store unchanged, and in particular
`setTags(1, ["Paris", "paris", "  PARIS "])` on a store with picture 1 and
no tags results in exactly one association, named `paris`. -/
theorem setTags_replaces_with_deduped_normalized_names (db : TagStore)
    (pid : Nat) (names : List String) (wf : TagWF db) :
    (pid ∉ db.pictures → setPictureTags db pid names = (false, db)) ∧
    (pid ∈ db.pictures →
      (setPictureTags db pid names).1 = true ∧
      (∀ m, m ∈ getPictureTags (setPictureTags db pid names).2 pid ↔
        (m ∈ names.map normalizeTag ∧ m ≠ "")) ∧
      (getPictureTags (setPictureTags db pid names).2 pid).Nodup) ∧
    getPictureTags (setPictureTags ⟨[1], [], [], 1⟩ 1
      ["Paris", "paris", "  PARIS "]).2 1 = ["paris"] := by
  refine ⟨?_, ?_, by decide⟩
  · intro hno
    unfold setPictureTags
    rw [if_neg hno]
  · intro hyes
    have wf1 : TagWF { db with
        pictureTags := db.pictureTags.filter (fun a => a.1 != pid) } :=
      ⟨wf.ids_nodup, wf.names_nodup, wf.ids_lt, wf.ids_pos, wf.next_pos⟩
    obtain ⟨hpic2, hpt2, hwf2, hsub2, hb2, hc2⟩ :=
      mapGetOrCreateTagId_spec names
        { db with pictureTags := db.pictureTags.filter (fun a => a.1 != pid) }
        wf1
    have hset : setPictureTags db pid names =
        (true,
         { (mapGetOrCreateTagId
              { db with
                pictureTags := db.pictureTags.filter (fun a => a.1 != pid) }
              names).2 with
           pictureTags :=
             (mapGetOrCreateTagId
                { db with
                  pictureTags := db.pictureTags.filter (fun a => a.1 != pid) }
                names).2.pictureTags ++
             (jsSetDedup (jsFilterBoolean
                (mapGetOrCreateTagId
                  { db with
                    pictureTags := db.pictureTags.filter (fun a => a.1 != pid) }
                  names).1)).map (fun tid => (pid, tid)) }) := by
      unfold setPictureTags
      rw [if_pos hyes]
    rw [hset]
    refine ⟨rfl, ?_, ?_⟩
    all_goals
      have hassoc :
          ({ (mapGetOrCreateTagId
                { db with
                  pictureTags := db.pictureTags.filter (fun a => a.1 != pid) }
                names).2 with
             pictureTags :=
               (mapGetOrCreateTagId
                  { db with
                    pictureTags := db.pictureTags.filter (fun a => a.1 != pid) }
                  names).2.pictureTags ++
               (jsSetDedup (jsFilterBoolean
                  (mapGetOrCreateTagId
                    { db with
                      pictureTags := db.pictureTags.filter (fun a => a.1 != pid) }
                    names).1)).map (fun tid => (pid, tid)) } :
            TagStore).pictureTags.filter (fun a => a.1 == pid) =
          (jsSetDedup (jsFilterBoolean
            (mapGetOrCreateTagId
              { db with
                pictureTags := db.pictureTags.filter (fun a => a.1 != pid) }
              names).1)).map (fun tid => (pid, tid)) := by
        show ((mapGetOrCreateTagId _ names).2.pictureTags ++ _).filter _ = _
        rw [List.filter_append]
        have h1 : (mapGetOrCreateTagId
            { db with
              pictureTags := db.pictureTags.filter (fun a => a.1 != pid) }
            names).2.pictureTags.filter (fun a => a.1 == pid) = [] := by
          rw [hpt2]
          rw [List.filter_eq_nil_iff]
          intro a ha
          have hne2 : (a.1 != pid) = true :=
            (List.mem_filter.mp (show a ∈ _ from ha)).2
          rw [bne_iff_ne] at hne2
          rw [beq_iff_eq]
          exact hne2
        have h2 : ((jsSetDedup (jsFilterBoolean
            (mapGetOrCreateTagId
              { db with
                pictureTags := db.pictureTags.filter (fun a => a.1 != pid) }
              names).1)).map (fun tid => (pid, tid))).filter
              (fun a => a.1 == pid) =
            (jsSetDedup (jsFilterBoolean
              (mapGetOrCreateTagId
                { db with
                  pictureTags := db.pictureTags.filter (fun a => a.1 != pid) }
                names).1)).map (fun tid => (pid, tid)) := by
          rw [List.filter_eq_self]
          intro a ha
          obtain ⟨tid, _, rfl⟩ := List.mem_map.mp ha
          exact beq_iff_eq.mpr rfl
        rw [h1, h2, List.nil_append]
    · -- membership
      intro m
      unfold getPictureTags
      rw [hassoc, List.filterMap_map]
      rw [(List.perm_insertionSort _ _).mem_iff, List.mem_filterMap]
      constructor
      · rintro ⟨i, hiT, hf⟩
        have hiF := mem_jsSetDedup.mp hiT
        obtain ⟨hiR, _⟩ := mem_jsFilterBoolean.mp hiF
        obtain ⟨_, nm, hmem, hne, hname⟩ := hb2 i hiR
        have hm : m = normalizeTag nm := by
          have := hf.symm.trans hname
          exact Option.some.inj this
        subst hm
        exact ⟨List.mem_map_of_mem normalizeTag hmem, hne⟩
      · rintro ⟨hmm, hne⟩
        obtain ⟨nm, hnm, heqm⟩ := List.mem_map.mp hmm
        have hne' : normalizeTag nm ≠ "" := by rw [heqm]; exact hne
        obtain ⟨i, hiR, hname⟩ := hc2 nm hnm hne'
        obtain ⟨hpos, _⟩ := hb2 i hiR
        refine ⟨i, mem_jsSetDedup.mpr (mem_jsFilterBoolean.mpr
          ⟨hiR, by omega⟩), ?_⟩
        rw [heqm] at hname
        exact hname
    · -- nodup
      unfold getPictureTags
      rw [hassoc, List.filterMap_map]
      rw [(List.perm_insertionSort _ _).nodup_iff]
      refine List.Nodup.filterMap ?_ (nodup_jsSetDedup _)
      intro a b c hca hcb
      rw [Option.mem_def] at hca hcb
      exact findTagNameById_inj hwf2 hca hcb

/-- Witness for C8: on a store with pictures `{1, 2}`, one existing tag
`old` attached to picture 1, the scenario call replaces the tag set (the
result names are exactly the normalized `paris`, once), and `setTags`
against the missing picture 3 returns the not-found signal with the store
unchanged. -/
theorem setTags_replaces_with_deduped_normalized_names_witness :
    (setPictureTags ⟨[1, 2], [(1, "old")], [(1, 1)], 2⟩ 1
      ["Paris", "paris", "  PARIS "]).1 = true ∧
    ("paris" ∈ getPictureTags (setPictureTags
      ⟨[1, 2], [(1, "old")], [(1, 1)], 2⟩ 1
      ["Paris", "paris", "  PARIS "]).2 1 ↔
      ("paris" ∈ ["Paris", "paris", "  PARIS "].map normalizeTag ∧
        "paris" ≠ "")) ∧
    (getPictureTags (setPictureTags ⟨[1, 2], [(1, "old")], [(1, 1)], 2⟩ 1
      ["Paris", "paris", "  PARIS "]).2 1).Nodup ∧
    setPictureTags ⟨[1, 2], [(1, "old")], [(1, 1)], 2⟩ 3 ["Paris"] =
      (false, ⟨[1, 2], [(1, "old")], [(1, 1)], 2⟩) := by
  have h := setTags_replaces_with_deduped_normalized_names
    ⟨[1, 2], [(1, "old")], [(1, 1)], 2⟩ 1 ["Paris", "paris", "  PARIS "]
    ⟨by decide, by decide, by decide, by decide, by decide⟩
  have h2 := setTags_replaces_with_deduped_normalized_names
    ⟨[1, 2], [(1, "old")], [(1, 1)], 2⟩ 3 ["Paris"]
    ⟨by decide, by decide, by decide, by decide, by decide⟩
  obtain ⟨_, hmid, _⟩ := h
  obtain ⟨hx1, hx2, hx3⟩ := hmid (by decide)
  exact ⟨hx1, hx2 "paris", hx3, h2.1 (by decide)⟩

end SimpleGallery
